import Mathlib

/-
  Verification of the bulk-analysis job tracking and result-reconciliation
  subsystem of the resume-scanner frontend
  (src/frontend/src/components/EnhancedDashboard.jsx).

  The JavaScript source is shallowly embedded: records and job-status
  snapshots become Lean structures, the localStorage-backed record list
  becomes a `List AnalysisRecord`, in-place mutation becomes functional
  update, and the two statements that can throw a TypeError at runtime
  (`matchingResult.filename.replace` on undefined, and
  `jobStatus.results.filter` on undefined) are modelled with `Except`.
-/

set_option autoImplicit false

namespace ResumeScanner

/-! ## Character classes of the source regexes (EnhancedDashboard.jsx:528-539) -/

/-- Character class `[A-Z]`. -/
def isUpperA (c : Char) : Bool := 'A' ≤ c && c ≤ 'Z'

/-- Character class `[a-z]`. -/
def isLowerA (c : Char) : Bool := 'a' ≤ c && c ≤ 'z'

/-- Character class `[A-Za-z]` (also `[a-z]` under the `/i` flag). -/
def isLetterA (c : Char) : Bool := isUpperA c || isLowerA c

/-- JavaScript `\s` restricted to the ASCII whitespace characters
(space, tab, line feed, carriage return, vertical tab, form feed);
the Unicode space characters are not modelled since no input here
contains them. -/
def isJsSpace (c : Char) : Bool :=
  c == ' ' || c == '\t' || c == '\n' || c == '\r' || c == '\u000B' || c == '\u000C'

/-- Character class `[-_]`. -/
def isSep (c : Char) : Bool := c == '-' || c == '_'

/-- JavaScript `.` (without the `s` flag): any character except line
terminators. -/
def isDotCh (c : Char) : Bool :=
  !(c == '\n' || c == '\r' || c == '\u2028' || c == '\u2029')

/-! ## String helpers mirroring the JavaScript string methods -/

/-- JavaScript `str.replace(/\.[^/.]+$/, "")` on a character list: drop a
trailing extension consisting of a dot followed by one or more characters
none of which is a dot or a slash (EnhancedDashboard.jsx:525). -/
def stripExtL (l : List Char) : List Char :=
  let rev := l.reverse
  let ext := rev.takeWhile (fun c => !(c == '.' || c == '/'))
  match rev.drop ext.length with
  | '.' :: rest => if ext.length > 0 then rest.reverse else l
  | _ => l

/-- JavaScript `str.replace(/[-_]/g, " ")`. -/
def sepToSpaceL (l : List Char) : List Char :=
  l.map (fun c => if isSep c then ' ' else c)

/-- JavaScript `str.replace(/\s+/g, " ")`: each maximal whitespace run
becomes a single space. -/
def collapseSpacesL (l : List Char) : List Char :=
  l.foldr
    (fun c acc =>
      if isJsSpace c then
        match acc with
        | d :: _ => if d == ' ' then acc else ' ' :: acc
        | [] => [' ']
      else c :: acc)
    []

/-- JavaScript `str.trim()` (same whitespace set as `\s`). -/
def trimL (l : List Char) : List Char :=
  ((l.dropWhile isJsSpace).reverse.dropWhile isJsSpace).reverse

/-- ASCII lowercasing of one character, as `String.prototype.toLowerCase`
acts on ASCII input. -/
def toLowerCh (c : Char) : Char :=
  if isUpperA c then Char.ofNat (c.toNat + 32) else c

/-- ASCII uppercasing of one character, as `String.prototype.toUpperCase`
acts on ASCII input. -/
def toUpperCh (c : Char) : Char :=
  if isLowerA c then Char.ofNat (c.toNat - 32) else c

/-- JavaScript `str.toLowerCase()` on a character list (ASCII). -/
def toLowerL (l : List Char) : List Char := l.map toLowerCh

/-- JavaScript `str.split(" ")` on a character list: split at every single
space character; consecutive spaces produce empty words. -/
def splitOnSpaceL : List Char → List (List Char)
  | [] => [[]]
  | c :: rest =>
    let r := splitOnSpaceL rest
    if c == ' ' then [] :: r
    else
      match r with
      | w :: ws => (c :: w) :: ws
      | [] => [[c]]

/-- JavaScript `word.charAt(0).toUpperCase() + word.slice(1)`. -/
def capFirstL : List Char → List Char
  | [] => []
  | c :: rest => toUpperCh c :: rest

/-- JavaScript `words.join(" ")`. -/
def joinSpaceL : List (List Char) → List Char
  | [] => []
  | [w] => w
  | w :: ws => w ++ ' ' :: joinSpaceL ws

/-- The proper-casing used by the name heuristic
(EnhancedDashboard.jsx:546-550 and 563-567): lowercase the string, split
on single spaces, capitalize the first character of each word, re-join. -/
def properCaseL (l : List Char) : List Char :=
  joinSpaceL ((splitOnSpaceL (toLowerL l)).map capFirstL)

/-! ## A small backtracking matcher for the five filename regexes

Each matcher maps an input suffix to the list of `(consumed, rest)` pairs
in the exact preference order of the JavaScript regex engine
(greedy, leftmost, backtracking), so that taking the head of the final
result list reproduces `String.prototype.match` and its first capture
group. -/

/-- Matching results: consumed characters paired with the remaining
suffix, most-preferred first. -/
abbrev MRes := List (List Char × List Char)

/-- All ways a greedy `p+` can consume a non-empty prefix of `s`,
longest first. -/
def runSplits (p : Char → Bool) (s : List Char) : MRes :=
  (List.range (s.takeWhile p).length).map (fun i =>
    let k := (s.takeWhile p).length - i
    ((s.takeWhile p).take k, (s.takeWhile p).drop k ++ s.drop (s.takeWhile p).length))

/-- Greedy `p+` over a character class. -/
def plusCls (p : Char → Bool) (s : List Char) : MRes := runSplits p s

/-- Greedy `p*` over a character class: the empty consumption comes last. -/
def starCls (p : Char → Bool) (s : List Char) : MRes := runSplits p s ++ [([], s)]

/-- Sequencing of two matchers, preserving backtracking order. -/
def seqM (m1 m2 : List Char → MRes) (s : List Char) : MRes :=
  (m1 s).bind (fun x =>
    (m2 x.2).map (fun y => (x.1 ++ y.1, y.2)))

/-- Greedy `(X)+` for a matcher `X` that always consumes at least one
character; `fuel` bounds the number of repetitions. -/
def repPlusM (m : List Char → MRes) : Nat → List Char → MRes
  | 0, _ => []
  | fuel + 1, s =>
    (m s).bind (fun x =>
      ((repPlusM m fuel x.2).map (fun y => (x.1 ++ y.1, y.2))) ++ [x])

/-- The word `[A-Z][a-z]+` of patterns 1-3. -/
def wordTitleM : List Char → MRes
  | [] => []
  | c :: rest =>
    if isUpperA c then (plusCls isLowerA rest).map (fun x => (c :: x.1, x.2))
    else []

/-- The word `[A-Za-z]+` of pattern 5 (and of pattern 4 under `/i`). -/
def wordAlphaM (s : List Char) : MRes := plusCls isLetterA s

/-- The capture group `(W(?:\s+W)+)` for a given word matcher. -/
def nameGroupM (word : List Char → MRes) (s : List Char) : MRes :=
  seqM word (fun r => repPlusM (seqM (fun u => plusCls isJsSpace u) word) (r.length + 1) r) s

/-- The optional tail `(?:\s*[-_]\s*.+)` of patterns 1, 4 and 5 (consumed
characters are irrelevant, only the remaining suffix matters). -/
def tailM (s : List Char) : MRes :=
  (starCls isJsSpace s).bind (fun x =>
    match x.2 with
    | c :: r2 =>
      if isSep c then
        (starCls isJsSpace r2).bind (fun y =>
          (plusCls isDotCh y.2).map (fun z => (([] : List Char), z.2)))
      else []
    | [] => [])

/-- The tail made optional (greedy: present first). -/
def tailOptM (s : List Char) : MRes := tailM s ++ [([], s)]

/-- Pattern `^([A-Z][a-z]+(?:\s+[A-Z][a-z]+)+)(?:\s*[-_]\s*.+)?$`
(EnhancedDashboard.jsx:530): full-string match, returning the first
capture group of the preferred match. -/
def p1MatchL (s : List Char) : Option (List Char) :=
  ((nameGroupM wordTitleM s).bind (fun x =>
    (tailOptM x.2).filterMap (fun y =>
      if y.2.isEmpty then some x.1 else none))).head?

/-- Pattern `.*[-_]\s*([A-Z][a-z]+(?:\s+[A-Z][a-z]+)+)$`
(EnhancedDashboard.jsx:532). -/
def p2MatchL (s : List Char) : Option (List Char) :=
  ((starCls isDotCh s).bind (fun x =>
    match x.2 with
    | c :: r2 =>
      if isSep c then
        (starCls isJsSpace r2).bind (fun y =>
          (nameGroupM wordTitleM y.2).filterMap (fun z =>
            if z.2.isEmpty then some z.1 else none))
      else []
    | [] => [])).head?

/-- Pattern `^([A-Z][a-z]+(?:\s+[A-Z][a-z]+)+)$` (EnhancedDashboard.jsx:534). -/
def p3MatchL (s : List Char) : Option (List Char) :=
  ((nameGroupM wordTitleM s).filterMap (fun x =>
    if x.2.isEmpty then some x.1 else none)).head?

/-- Pattern `^([a-z]+(?:\s+[a-z]+)+)(?:\s*[-_]\s*.+)?$/i`
(EnhancedDashboard.jsx:536); under the `/i` flag `[a-z]` is any ASCII
letter, so the pattern coincides with pattern 5. -/
def p4MatchL (s : List Char) : Option (List Char) :=
  ((nameGroupM wordAlphaM s).bind (fun x =>
    (tailOptM x.2).filterMap (fun y =>
      if y.2.isEmpty then some x.1 else none))).head?

/-- Pattern `^([A-Za-z]+(?:\s+[A-Za-z]+)+)(?:\s*[-_]\s*.+)?$`
(EnhancedDashboard.jsx:538). -/
def p5MatchL (s : List Char) : Option (List Char) :=
  ((nameGroupM wordAlphaM s).bind (fun x =>
    (tailOptM x.2).filterMap (fun y =>
      if y.2.isEmpty then some x.1 else none))).head?

/-- The loop over the patterns (EnhancedDashboard.jsx:541-553): the first
pattern whose match has a truthy (non-empty) first group wins. -/
def tryPat (res : Option (List Char)) : Option (List Char) :=
  match res with
  | some g => if g.isEmpty then none else some g
  | none => none

/-- First pattern producing a usable capture, in source order. -/
def patsFirst (l : List Char) : Option (List Char) :=
  (tryPat (p1MatchL l)) <|> (tryPat (p2MatchL l)) <|> (tryPat (p3MatchL l)) <|>
    (tryPat (p4MatchL l)) <|> (tryPat (p5MatchL l))

/-- The cleanup fallback of the heuristic (EnhancedDashboard.jsx:556-559):
separators to spaces, whitespace runs collapsed, trimmed. -/
def cleanedNameL (nameWithoutExt : List Char) : List Char :=
  trimL (collapseSpacesL (sepToSpaceL nameWithoutExt))

/-- Core of `extractNameFromFilename` (EnhancedDashboard.jsx:521-572) on a
character list: strip the extension, try the five patterns, otherwise
clean the filename and accept it when it looks like a two-or-more-word
name of reasonable length. -/
def extractNameCore (l : List Char) : Option (List Char) :=
  match patsFirst (stripExtL l) with
  | some g => some (properCaseL (trimL g))
  | none =>
    if (cleanedNameL (stripExtL l)).contains ' ' &&
        decide ((cleanedNameL (stripExtL l)).length > 2) &&
        decide ((cleanedNameL (stripExtL l)).length < 50) then
      some (properCaseL (cleanedNameL (stripExtL l)))
    else none

/-- The name heuristic `extractNameFromFilename`
(EnhancedDashboard.jsx:521-572). The argument is optional because the
source also calls it on possibly-undefined values; `if (!fileName) return
null` makes both `undefined` and `""` return null. -/
def extractNameFromFilename (fileName : Option String) : Option String :=
  match fileName with
  | none => none
  | some fn => if fn == "" then none else (extractNameCore fn.toList).map String.mk

/-! ## Data model

`AnalysisRecord` is the shape of one entry of the `recentAnalyses`
localStorage list; `ResultSummary` is one entry of `jobStatus.results`;
`JobStatus` is the body of a bulk-job-status response. Optional fields
model possibly-absent JSON fields (JavaScript `undefined`). -/

/-- The nested `full_analysis` blob returned by the backend: the only part
this subsystem ever looks into is `basic_info.content.email`
(EnhancedDashboard.jsx:696), modelled by `email`; `blob` abstracts the
rest of the JSON value, which is only carried. -/
structure FullAnalysisBlob where
  email : Option String
  blob : String
deriving DecidableEq, Repr

/-- One entry of `jobStatus.results`, with the fields the dashboard reads. -/
structure ResultSummary where
  filename : Option String
  candidate_name : Option String
  overall_score : Option Int
  key_skills : Option (List String)
  experience_level : Option String
  education_level : Option String
  cgpa_found : Option Bool
  cgpa_value : Option String
  formatting_score : Option Int
  priority_scores : List (String × Int)
  full_analysis : Option FullAnalysisBlob
  rule_based_findings : Option String
  fact_sheet : Option String
  priority_analysis : Option String
deriving DecidableEq, Repr

/-- A `ResultSummary` with every field absent, used to build concrete
snapshots. -/
def blankResult : ResultSummary :=
  { filename := none, candidate_name := none, overall_score := none,
    key_skills := none, experience_level := none, education_level := none,
    cgpa_found := none, cgpa_value := none, formatting_score := none,
    priority_scores := [], full_analysis := none, rule_based_findings := none,
    fact_sheet := none, priority_analysis := none }

/-- The body of a `GET .../bulk_job_status/{jobId}` response. -/
structure JobStatus where
  status : String
  results : Option (List ResultSummary)
  error_message : Option String
deriving DecidableEq, Repr

/-- The `fullAnalysis` value attached to a record: either the mock
detailed structure built from a result in the exact-match pass
(EnhancedDashboard.jsx:622-693, a pure function of the result), or the
raw result attached by the force-match pass (EnhancedDashboard.jsx:764). -/
inductive AttachedAnalysis where
  | mock (r : ResultSummary)
  | raw (r : ResultSummary)
deriving DecidableEq, Repr

/-- One observation instant: `new Date().toISOString()` and
`new Date().toLocaleDateString()` of the same moment. -/
structure Instant where
  iso : String
  locale : String
deriving DecidableEq, Repr

/-- One entry of the `recentAnalyses` list. -/
structure AnalysisRecord where
  id : String
  jobId : Option String
  fileName : Option String
  name : Option String
  candidateName : Option String
  score : Option Int
  overallScore : Option Int
  priorities : List String
  status : String
  timestamp : String
  uploadedAt : Option String
  email : Option String
  fullAnalysis : Option AttachedAnalysis
  full_analysis : Option FullAnalysisBlob
  rule_based_findings : Option String
  fact_sheet : Option String
  priority_analysis : Option String
deriving DecidableEq, Repr

/-- The record store: the parsed `recentAnalyses` localStorage value,
most recent first. -/
abbrev Store := List AnalysisRecord

/-! ## JavaScript truthiness helpers -/

/-- Truthiness of a possibly-absent string: `undefined` and `""` are
falsy. -/
def strTruthy : Option String → Bool
  | none => false
  | some s => s != ""

/-- JavaScript `a || b` where `a` is a possibly-absent string and the
result is used as a possibly-absent value. -/
def jsOrOptStr (a b : Option String) : Option String :=
  if strTruthy a then a else b

/-- JavaScript `a || b` for a possibly-absent number with default `b`
(`0` is falsy). -/
def jsOrInt (a : Option Int) (b : Int) : Int :=
  match a with
  | some n => if n = 0 then b else n
  | none => b

/-- Template-literal interpolation of a possibly-undefined string
(JavaScript renders `undefined`). -/
def jsInterp : Option String → String
  | some s => s
  | none => "undefined"

/-- JavaScript `str.replace(/\.[^/.]+$/, "")` on a `String`. -/
def stripExt (s : String) : String := String.mk (stripExtL s.toList)

/-- JavaScript `str.replace(/[-_]/g, " ")` on a `String`. -/
def sepToSpace (s : String) : String := String.mk (sepToSpaceL s.toList)

/-- JavaScript `str.toLowerCase()` on a `String` (ASCII). -/
def lowerStr (s : String) : String := String.mk (toLowerL s.toList)

/-! ## ResultReconciler: the exact-match pass (EnhancedDashboard.jsx:605-719) -/

/-- The record predicate of both passes: the record belongs to the polled
job and is still a placeholder (`analysis.jobId === jobId &&
analysis.status === "processing"`). -/
def procOf (j : String) (a : AnalysisRecord) : Bool :=
  a.jobId == some j && a.status == "processing"

/-- Propositional form of `procOf`. -/
def IsProcOf (j : String) (a : AnalysisRecord) : Prop :=
  a.jobId = some j ∧ a.status = "processing"

/-- Name resolution of the exact-match pass (EnhancedDashboard.jsx:616-619):
`matchingResult.candidate_name || extractNameFromFilename(matchingResult.filename)
|| matchingResult.filename.replace(/\.[^/.]+$/, "")`. The last step throws
a TypeError when `filename` is `undefined`, modelled by `Except.error`. -/
def pass1Name (r : ResultSummary) : Except Unit String :=
  if strTruthy r.candidate_name then .ok (r.candidate_name.getD "")
  else if strTruthy (extractNameFromFilename r.filename) then
    .ok ((extractNameFromFilename r.filename).getD "")
  else
    match r.filename with
    | some fn => .ok (stripExt fn)
    | none => .error ()

/-- The record produced when a placeholder is matched by filename
(EnhancedDashboard.jsx:698-715): spread of the old record with the listed
fields replaced. -/
def applyExactResult (j : String) (r : ResultSummary) (nm : String)
    (a : AnalysisRecord) (now : Instant) : AnalysisRecord :=
  { a with
    id := j ++ "-completed-" ++ jsInterp a.fileName,
    name := some nm,
    candidateName := some nm,
    score := r.overall_score,
    status := "completed",
    fullAnalysis := some (.mock r),
    full_analysis := r.full_analysis,
    rule_based_findings := r.rule_based_findings,
    fact_sheet := r.fact_sheet,
    priority_analysis := r.priority_analysis,
    email := r.full_analysis.bind (fun b => b.email),
    timestamp := now.iso,
    uploadedAt := some now.locale }

/-- One step of the `updatedAnalyses.map` of the exact-match pass
(EnhancedDashboard.jsx:605-719). -/
def pass1Record (j : String) (rs : List ResultSummary) (now : Instant)
    (a : AnalysisRecord) : Except Unit AnalysisRecord :=
  if procOf j a then
    match rs.find? (fun r => r.filename == a.fileName) with
    | some r =>
      match pass1Name r with
      | .ok nm => .ok (applyExactResult j r nm a now)
      | .error e => .error e
    | none => .ok a
  else .ok a

/-- The exact-match pass over the whole store (the `.map` of
EnhancedDashboard.jsx:605); a thrown TypeError aborts the pass before the
store is written back. -/
def pass1 (j : String) (rs : List ResultSummary) (now : Instant) :
    Store → Except Unit Store
  | [] => .ok []
  | a :: t =>
    match pass1Record j rs now a with
    | .error e => .error e
    | .ok a' =>
      match pass1 j rs now t with
      | .error e => .error e
      | .ok t' => .ok (a' :: t')

/-! ## ResultReconciler: the force-match pass (EnhancedDashboard.jsx:736-777) -/

/-- Does one completed record account for a result
(EnhancedDashboard.jsx:739-744): same job, completed, and filename equal
exactly or case-insensitively. -/
def resMatchCompleted (j : String) (r : ResultSummary) (a : AnalysisRecord) : Bool :=
  a.jobId == some j && a.status == "completed" &&
    (a.fileName == r.filename || a.fileName.map lowerStr == r.filename.map lowerStr)

/-- `updatedAnalyses.some(...)` of the unmatched-results filter. -/
def resultMatchedByCompleted (j : String) (s : Store) (r : ResultSummary) : Bool :=
  s.any (resMatchCompleted j r)

/-- Name resolution of the force-match pass (EnhancedDashboard.jsx:754-758):
`result.candidate_name || extractNameFromFilename(result.filename) ||
result.filename?.replace(/\.[^/.]+$/, "").replace(/[-_]/g, " ") ||
"Unknown Candidate"`. -/
def forceExtractedName (r : ResultSummary) : String :=
  if strTruthy r.candidate_name then r.candidate_name.getD ""
  else if strTruthy (extractNameFromFilename r.filename) then
    (extractNameFromFilename r.filename).getD ""
  else
    match r.filename with
    | some fn =>
      let c := sepToSpace (stripExt fn)
      if c = "" then "Unknown Candidate" else c
    | none => "Unknown Candidate"

/-- The `Object.assign(processingEntry, {...})` of the force-match pass
(EnhancedDashboard.jsx:760-775). -/
def applyForceResult (r : ResultSummary) (a : AnalysisRecord) (now : Instant) :
    AnalysisRecord :=
  { a with
    status := "completed",
    score := some (jsOrInt r.overall_score 0),
    overallScore := some (jsOrInt r.overall_score 0),
    fullAnalysis := some (.raw r),
    full_analysis := r.full_analysis,
    rule_based_findings := r.rule_based_findings,
    fact_sheet := r.fact_sheet,
    priority_analysis := r.priority_analysis,
    fileName := jsOrOptStr r.filename a.fileName,
    name := some (forceExtractedName r),
    candidateName := some (forceExtractedName r),
    uploadedAt := some now.locale,
    timestamp := now.iso }

/-- Assign one unmatched result to the first remaining placeholder of the
job, if any (`updatedAnalyses.find` + in-place `Object.assign`,
EnhancedDashboard.jsx:748-777). -/
def forceAssign (j : String) (r : ResultSummary) (now : Instant) : Store → Store
  | [] => []
  | a :: t =>
    if procOf j a then applyForceResult r a now :: t
    else a :: forceAssign j r now t

/-- The `unmatchedResults.forEach` fold: assign each result, in order, to
the first remaining placeholder. -/
def foldAssign (j : String) (now : Instant) (us : List ResultSummary) (t : Store) : Store :=
  us.foldl (fun t2 r => forceAssign j r now t2) t

/-- The force-match pass: filter the results not accounted for by a
completed record (computed once, against the post-exact-pass store), then
assign each to the first remaining placeholder. -/
def forcePass (j : String) (now : Instant) (rs : List ResultSummary) (s : Store) : Store :=
  foldAssign j now (rs.filter (fun r => !(resultMatchedByCompleted j s r))) s

/-! ## ResultReconciler: one full reconciliation of a poll response -/

/-- Apply one `jobStatus` snapshot to the store: the exact-match pass runs
when `results` is a non-empty list (EnhancedDashboard.jsx:602); when the
job-level status is `"completed"` the force-match pass follows
(EnhancedDashboard.jsx:736-777), and `jobStatus.results.filter` throws a
TypeError if `results` is absent. `Except.error` models an exception
propagating to the poll loop's catch block (in which case the store is
never written back). -/
def reconcile (j : String) (js : JobStatus) (now : Instant) (s : Store) :
    Except Unit Store :=
  let step1 : Except Unit Store :=
    match js.results with
    | some rs => if rs.length > 0 then pass1 j rs now s else .ok s
    | none => .ok s
  match step1 with
  | .error e => .error e
  | .ok s1 =>
    if js.status = "completed" then
      match js.results with
      | some rs => .ok (forcePass j now rs s1)
      | none => .error ()
    else .ok s1

/-! ## RecordStore operations: placeholder insertion and expiry cleanup -/

/-- The placeholder name chain (EnhancedDashboard.jsx:392-395):
`extractNameFromFilename(file.name) || file.name.replace(/\.[^/.]+$/,
"").replace(/[-_]/g, " ") || "Unknown Candidate"`. -/
def placeholderName (fileName : String) : String :=
  if strTruthy (extractNameFromFilename (some fileName)) then
    (extractNameFromFilename (some fileName)).getD ""
  else
    let c := sepToSpace (stripExt fileName)
    if c = "" then "Unknown Candidate" else c

/-- One placeholder record created at bulk submission
(EnhancedDashboard.jsx:396-409). -/
def mkPlaceholder (j : String) (idx : Nat) (fileName : String)
    (prios : List String) (now : Instant) : AnalysisRecord :=
  { id := j ++ "-" ++ toString idx,
    fileName := some fileName,
    name := some (placeholderName fileName),
    candidateName := some (placeholderName fileName),
    score := some 0,
    overallScore := none,
    priorities := if prios.length > 0 then prios else ["General Analysis"],
    jobId := some j,
    status := "processing",
    timestamp := now.iso,
    uploadedAt := none, email := none, fullAnalysis := none,
    full_analysis := none, rule_based_findings := none, fact_sheet := none,
    priority_analysis := none }

/-- `files.map((file, index) => ...)` (EnhancedDashboard.jsx:391-410). -/
def mkPlaceholders (j : String) (files : List String) (prios : List String)
    (now : Instant) : Store :=
  files.enum.map (fun p => mkPlaceholder j p.1 p.2 prios now)

/-- `[...placeholders, ...existingAnalyses].slice(0, 10)`
(EnhancedDashboard.jsx:413-418). -/
def insertPlaceholders (j : String) (files : List String) (prios : List String)
    (now : Instant) (s : Store) : Store :=
  (mkPlaceholders j files prios now ++ s).take 10

/-- The not-found cleanup (EnhancedDashboard.jsx:817-819):
`updatedAnalyses.filter(analysis => analysis.jobId !== jobId)`. -/
def cleanupJob (j : String) (s : Store) : Store :=
  s.filter (fun a => a.jobId != some j)

/-! ## JobPoller: error classification and failure handling
(EnhancedDashboard.jsx:574-860) -/

/-- Does `pat` occur at the head of `l`. -/
def headMatches : List Char → List Char → Bool
  | [], _ => true
  | _ :: _, [] => false
  | p :: ps, c :: cs => p == c && headMatches ps cs

/-- Does `pat` occur anywhere in `l` (JavaScript `String.prototype.includes`). -/
def occursIn (pat : List Char) : List Char → Bool
  | [] => headMatches pat []
  | c :: cs => headMatches pat (c :: cs) || occursIn pat cs

/-- JavaScript `s.includes(pat)`. -/
def strHasSub (s pat : String) : Bool := occursIn pat.toList s.toList

/-- The error message built for a non-ok response
(EnhancedDashboard.jsx:590): `Failed to get job status: HTTP {status}`. -/
def mkHttpErrorMsg (code : Nat) : String :=
  "Failed to get job status: HTTP " ++ toString code

/-- How the catch block classifies a caught error by its message
(EnhancedDashboard.jsx:814 and 825): not-found before rate-limited, else
generic. -/
inductive PollErrorKind where
  | notFound
  | rateLimited
  | generic
deriving DecidableEq, Repr

/-- The message-substring classification of the catch block. -/
def classifyPollError (msg : String) : PollErrorKind :=
  if strHasSub msg "HTTP 404" then .notFound
  else if strHasSub msg "429" || strHasSub msg "rate limit" ||
      strHasSub msg "temporarily blocked" then .rateLimited
  else .generic

/-- The mutable counters of one `pollBulkJobStatus` run
(EnhancedDashboard.jsx:578-579); `attempts` is the already-incremented
value observed inside the current iteration. -/
structure PollState where
  attempts : Nat
  consecutiveRateLimitErrors : Nat
deriving DecidableEq, Repr

/-- What the poll loop does next: schedule another poll after a delay in
milliseconds (`setTimeout(poll, d)`), or stop (return / fall through with
no new timer). -/
inductive PollAction where
  | schedule (delayMs : Nat)
  | halt
deriving DecidableEq, Repr

/-- `maxAttempts = 80` (EnhancedDashboard.jsx:576). -/
def maxAttempts : Nat := 80

/-- `pollInterval = 15000` milliseconds (EnhancedDashboard.jsx:577). -/
def pollIntervalMs : Nat := 15000

/-- The catch block of the poll loop (EnhancedDashboard.jsx:810-855):
not-found purges the job's records and stops; a rate-limit error
increments the consecutive counter and backs off exponentially
(`Math.min(30000 * 2^(consecutive-1), 300000)`); any other error resets
the consecutive counter and retries after twice the normal interval;
with attempts exhausted the loop stops. -/
def handlePollFailure (j : String) (msg : String) (st : PollState) (s : Store) :
    PollState × Store × PollAction :=
  match classifyPollError msg with
  | .notFound => (st, cleanupJob j s, .halt)
  | .rateLimited =>
    let st' : PollState :=
      { st with consecutiveRateLimitErrors := st.consecutiveRateLimitErrors + 1 }
    if st.attempts < maxAttempts then
      (st', s, .schedule (min (30000 * 2 ^ (st'.consecutiveRateLimitErrors - 1)) 300000))
    else (st', s, .halt)
  | .generic =>
    if st.attempts < maxAttempts then
      ({ st with consecutiveRateLimitErrors := 0 }, s, .schedule (pollIntervalMs * 2))
    else (st, s, .halt)

/-- A run of `c` consecutive rate-limited poll attempts (each iteration
increments `attempts`, then the fetch fails with HTTP 429 and the catch
block runs); returns the scheduled backoff delays in order together with
the final counters. The run ends early if the loop halts. -/
def runRateLimited (j : String) (s : Store) : Nat → PollState → List Nat × PollState
  | 0, st => ([], st)
  | c + 1, st =>
    match handlePollFailure j (mkHttpErrorMsg 429)
        { st with attempts := st.attempts + 1 } s with
    | (st', _, .schedule d) =>
      let rest := runRateLimited j s c st'
      (d :: rest.1, rest.2)
    | (st', _, .halt) => ([], st')

/-! ## The operations touching the record store, as one type -/

/-- Every operation of the subsystem that rewrites the `recentAnalyses`
list: a reconciliation of one poll response (whose exception, if any,
prevents the write-back), a placeholder insertion at bulk submission, and
the not-found cleanup. -/
inductive StoreOp where
  | reconcileOp (j : String) (js : JobStatus) (now : Instant)
  | insertOp (j : String) (files : List String) (prios : List String) (now : Instant)
  | cleanupOp (j : String)

/-- The store actually persisted after the operation (on an exception the
old store is kept, since the write-back is never reached). -/
def applyStoreOp : StoreOp → Store → Store
  | .reconcileOp j js now, s => ((reconcile j js now s).toOption).getD s
  | .insertOp j files prios now, s => insertPlaceholders j files prios now s
  | .cleanupOp j, s => cleanupJob j s

/-- The records an operation freshly creates (placeholders for an
insertion, nothing otherwise). -/
def opNewRecords : StoreOp → Store
  | .insertOp j files prios now => mkPlaceholders j files prios now
  | _ => []

/-! ## The candidate-name resolution described by the specification -/

/-- Modelled from the spec: the candidate-name priority order of section
4.2 — explicit `r.candidate_name` when it carries a name (an absent field
and an empty string are both treated as no name, as in the JSON wire
format); else the name heuristic on the filename when it returns
non-null; else the cleaned filename (extension stripped, separators
replaced by spaces) when non-empty; else the literal
"Unknown Candidate". -/
def specResolvedName (r : ResultSummary) : String :=
  match r.candidate_name with
  | some s =>
    if s ≠ "" then s
    else
      match extractNameFromFilename r.filename with
      | some h => h
      | none =>
        match r.filename with
        | some fn =>
          let c := sepToSpace (stripExt fn)
          if c ≠ "" then c else "Unknown Candidate"
        | none => "Unknown Candidate"
  | none =>
    match extractNameFromFilename r.filename with
    | some h => h
    | none =>
      match r.filename with
      | some fn =>
        let c := sepToSpace (stripExt fn)
        if c ≠ "" then c else "Unknown Candidate"
      | none => "Unknown Candidate"

/-! ## Concrete fixtures used by witnesses and counterexamples -/

/-- First observation instant of the concrete scenarios. -/
def instA : Instant := ⟨"2024-01-01T00:00:00.000Z", "1/1/2024"⟩

/-- A later observation instant. -/
def instB : Instant := ⟨"2024-01-01T00:00:15.000Z", "1/1/2024"⟩

/-- A processing placeholder for `a.pdf` of job `J`. -/
def recProcA : AnalysisRecord :=
  { id := "J-0", jobId := some "J", fileName := some "a.pdf",
    name := some "a", candidateName := some "a", score := some 0,
    overallScore := none, priorities := ["General Analysis"],
    status := "processing", timestamp := "2024-01-01T00:00:00.000Z",
    uploadedAt := none, email := none, fullAnalysis := none,
    full_analysis := none, rule_based_findings := none, fact_sheet := none,
    priority_analysis := none }

/-- A processing placeholder for `b.pdf` of job `J`. -/
def recProcB : AnalysisRecord := { recProcA with id := "J-1", fileName := some "b.pdf" }

/-- A processing placeholder whose file is named just `.pdf`. -/
def recProcDot : AnalysisRecord := { recProcA with fileName := some ".pdf" }

/-- A completed record of job `K`. -/
def recDoneK : AnalysisRecord :=
  { recProcA with id := "K-0", jobId := some "K", status := "completed" }

/-- A result whose `filename` is the empty string. -/
def resEmptyFn : ResultSummary :=
  { blankResult with filename := some "", overall_score := some 50 }

/-- A result for `a.pdf`. -/
def resA : ResultSummary :=
  { blankResult with filename := some "a.pdf", overall_score := some 80 }

/-- A result for the file named `.pdf` with no structured candidate name. -/
def resDotPdf : ResultSummary :=
  { blankResult with filename := some ".pdf", overall_score := some 60 }

/-- A completed snapshot whose single result has an empty filename. -/
def jsCompletedEmptyFn : JobStatus := ⟨"completed", some [resEmptyFn], none⟩

/-- A completed snapshot with one well-formed result. -/
def jsCompletedA : JobStatus := ⟨"completed", some [resA], none⟩

/-- A processing snapshot carrying the `.pdf` result. -/
def jsProcDot : JobStatus := ⟨"processing", some [resDotPdf], none⟩

/-- Eleven file names, one more than the store cap. -/
def files11 : List String :=
  ["f0.pdf", "f1.pdf", "f2.pdf", "f3.pdf", "f4.pdf", "f5.pdf", "f6.pdf",
   "f7.pdf", "f8.pdf", "f9.pdf", "f10.pdf"]

/-- The browser TypeError message raised by `jobStatus.results.filter` when
`results` is absent ("Cannot read properties of undefined (reading
filter)"); only its substrings matter to the classifier. -/
def typeErrorUndefinedMsg : String := "Cannot read properties of undefined"

/-! ## Helper lemmas -/

/-- The HTTP 404 error message classifies as not-found. -/
lemma classify_http404 : classifyPollError (mkHttpErrorMsg 404) = .notFound := by
  decide

/-- The HTTP 429 error message classifies as rate-limited. -/
lemma classify_http429 : classifyPollError (mkHttpErrorMsg 429) = .rateLimited := by
  decide

/-- The undefined-property TypeError message classifies as a generic error. -/
lemma classify_typeError : classifyPollError typeErrorUndefinedMsg = .generic := by
  decide

/-- The generic branch of the catch block: counter reset to zero, retry
after twice the normal interval. -/
lemma handle_generic (j msg : String) (st : PollState) (s : Store)
    (hg : classifyPollError msg = .generic) (ha : st.attempts < maxAttempts) :
    handlePollFailure j msg st s =
      ({ st with consecutiveRateLimitErrors := 0 }, s, .schedule (pollIntervalMs * 2)) := by
  unfold handlePollFailure
  rw [hg]
  simp [ha]

/-- Splitting a map over `range (n + 1)` into its head and a shifted tail. -/
lemma range_map_shift (f : Nat → Nat) (n : Nat) :
    (List.range (n + 1)).map f = f 0 :: (List.range n).map (fun i => f (i + 1)) := by
  rw [List.range_succ_eq_map, List.map_cons, List.map_map]
  rfl

/-- The scheduled delays of a run of consecutive rate-limited attempts,
for an arbitrary starting counter. -/
lemma runRateLimited_delays (j : String) (s : Store) :
    ∀ (c : Nat) (st : PollState), st.attempts + c < maxAttempts →
      (runRateLimited j s c st).1 =
        (List.range c).map
          (fun i => min (30000 * 2 ^ (st.consecutiveRateLimitErrors + i)) 300000) := by
  intro c
  induction c with
  | zero => intro st _; rfl
  | succ n ih =>
    intro st h
    have ha : st.attempts + 1 < maxAttempts := by omega
    have hrec :
        handlePollFailure j (mkHttpErrorMsg 429)
            { st with attempts := st.attempts + 1 } s =
          (⟨st.attempts + 1, st.consecutiveRateLimitErrors + 1⟩, s,
            .schedule (min (30000 * 2 ^ st.consecutiveRateLimitErrors) 300000)) := by
      unfold handlePollFailure
      rw [classify_http429]
      simp [ha]
    rw [runRateLimited, hrec]
    have hih := ih ⟨st.attempts + 1, st.consecutiveRateLimitErrors + 1⟩
      (by change st.attempts + 1 + n < maxAttempts; omega)
    show min (30000 * 2 ^ st.consecutiveRateLimitErrors) 300000 ::
        (runRateLimited j s n ⟨st.attempts + 1, st.consecutiveRateLimitErrors + 1⟩).1 =
      (List.range (n + 1)).map
        (fun i => min (30000 * 2 ^ (st.consecutiveRateLimitErrors + i)) 300000)
    rw [hih, range_map_shift]
    simp only [List.cons.injEq]
    refine ⟨by norm_num, ?_⟩
    apply List.map_congr_left
    intro a _
    show min (30000 * 2 ^ (st.consecutiveRateLimitErrors + 1 + a)) 300000 =
      min (30000 * 2 ^ (st.consecutiveRateLimitErrors + (a + 1))) 300000
    have he : st.consecutiveRateLimitErrors + 1 + a =
        st.consecutiveRateLimitErrors + (a + 1) := by omega
    rw [he]

/-! ## C4: exponential rate-limit backoff -/

/-- C4: starting from a zero consecutive-rate-limit counter, a run of `c`
consecutive rate-limited responses (with attempts remaining) schedules
retry delays min(30000·2^(k-1), 300000) ms for k = 1..c; in particular
the k-th consecutive rate-limited response is retried after exactly the
claimed delay. -/
theorem c4_backoff_delays (j : String) (s : Store) (c : Nat) (st : PollState)
    (h0 : st.consecutiveRateLimitErrors = 0) (hc : st.attempts + c < maxAttempts) :
    (runRateLimited j s c st).1 =
      (List.range c).map (fun i => min (30000 * 2 ^ i) 300000) ∧
    ∀ k, 1 ≤ k → k ≤ c →
      (runRateLimited j s c st).1[k - 1]? = some (min (30000 * 2 ^ (k - 1)) 300000) := by
  have hd := runRateLimited_delays j s c st hc
  rw [h0] at hd
  simp only [Nat.zero_add] at hd
  refine ⟨hd, ?_⟩
  intro k hk1 hkc
  rw [hd]
  rw [List.getElem?_map, List.getElem?_range (by omega)]
  rfl

/-- Witness for C4: five consecutive rate-limited responses from a fresh
poller give the delays 30 s, 60 s, 120 s, 240 s and 300 s (capped). -/
theorem c4_backoff_delays_witness :
    (runRateLimited "J" [] 5 ⟨0, 0⟩).1 = [30000, 60000, 120000, 240000, 300000] := by
  have h := c4_backoff_delays "J" [] 5 ⟨0, 0⟩ rfl (by decide)
  rw [h.1]
  rfl

/-! ## C5: generic transient errors -/

/-- C5 counterexample: a generic transient error does not leave the
consecutive-rate-limit counter unchanged — with the counter at 1 the
handler sets it to 0. -/
theorem c5_counter_reset_counterexample :
    (handlePollFailure "J" "network error" ⟨1, 1⟩ []).1.consecutiveRateLimitErrors ≠ 1 := by
  decide

/-- C5 (amended): a poll attempt failing with a generic transient error
(not rate-limit, not not-found), with attempts remaining, is retried after
twice the normal interval (30000 ms > 15000 ms) and the consecutive
rate-limit counter is RESET TO ZERO (not preserved). -/
theorem c5_generic_error_retry (j msg : String) (st : PollState) (s : Store)
    (hg : classifyPollError msg = .generic) (ha : st.attempts < maxAttempts) :
    handlePollFailure j msg st s =
      ({ st with consecutiveRateLimitErrors := 0 }, s, .schedule (pollIntervalMs * 2)) ∧
    pollIntervalMs < pollIntervalMs * 2 := by
  exact ⟨handle_generic j msg st s hg ha, by decide⟩

/-- Witness for C5: a concrete generic failure with counter 2 retries
after 30000 ms with the counter reset to 0. -/
theorem c5_generic_error_retry_witness :
    handlePollFailure "J" "network error" ⟨3, 2⟩ [] = (⟨3, 0⟩, [], .schedule 30000) := by
  have h := (c5_generic_error_retry "J" "network error" ⟨3, 2⟩ [] (by decide) (by decide)).1
  rw [h]
  rfl

/-! ## C7: not-found cleanup -/

/-- C7: a status query answered with HTTP 404 makes the handler remove
exactly the records whose jobId equals the polled jobId (every such
record is removed, all others are retained) and halt without scheduling
any further poll. -/
theorem c7_not_found_cleanup (j : String) (st : PollState) (s : Store) :
    handlePollFailure j (mkHttpErrorMsg 404) st s = (st, cleanupJob j s, .halt) ∧
    ∀ a : AnalysisRecord, a ∈ cleanupJob j s ↔ a ∈ s ∧ a.jobId ≠ some j := by
  constructor
  · unfold handlePollFailure
    rw [classify_http404]
  · intro a
    simp [cleanupJob, List.mem_filter]

/-! ## C9: the name heuristic on John_Smith_Resume.pdf -/

/-- C9 counterexample: the heuristic does not return "John Smith" on
"John_Smith_Resume.pdf". -/
theorem c9_john_smith_counterexample :
    extractNameFromFilename (some "John_Smith_Resume.pdf") ≠ some "John Smith" := by
  decide

/-- C9 (amended): the heuristic returns "John Smith Resume" on
"John_Smith_Resume.pdf" — every anchored pattern requires
whitespace-separated words, so the underscore-separated name falls
through to the cleanup fallback, which keeps the "Resume" token. -/
theorem c9_john_smith_amended :
    extractNameFromFilename (some "John_Smith_Resume.pdf") = some "John Smith Resume" := by
  decide

/-! ## C6: responses without a results field -/

/-- C6 counterexample: a completed response without `results` is not
treated as an empty update — `jobStatus.results.filter` throws, modelled
by `Except.error`. -/
theorem c6_missing_results_counterexample :
    reconcile "J" ⟨"completed", none, none⟩ instA [] = .error () := rfl

/-- C6 (amended): a response without `results` leaves the store unchanged
and is skipped for every job-level status other than "completed"; when
the status is "completed" the handler throws a TypeError internally
(`jobStatus.results.filter` on undefined), which the catch block treats
as a generic transient error — the store is still unchanged and the poll
is retried after twice the normal interval, so nothing is surfaced to the
user, but the response is not simply skipped. -/
theorem c6_missing_results (j : String) (js : JobStatus) (now : Instant) (s : Store)
    (hr : js.results = none) :
    reconcile j js now s = (if js.status = "completed" then .error () else .ok s) ∧
    ∀ st : PollState, st.attempts < maxAttempts →
      handlePollFailure j typeErrorUndefinedMsg st s =
        ({ st with consecutiveRateLimitErrors := 0 }, s, .schedule (pollIntervalMs * 2)) := by
  constructor
  · unfold reconcile
    rw [hr]
  · intro st ha
    exact handle_generic j typeErrorUndefinedMsg st s classify_typeError ha

/-- Witness for C6: a processing response without `results` leaves a
one-record store as is. -/
theorem c6_missing_results_witness :
    reconcile "J" ⟨"processing", none, none⟩ instA [recProcA] = .ok [recProcA] := by
  have h := (c6_missing_results "J" ⟨"processing", none, none⟩ instA [recProcA] rfl).1
  rw [if_neg (by decide)] at h
  exact h

/-! ## C3: placeholder insertion at bulk submission -/

/-- C3 counterexample: submitting eleven files creates eleven placeholders
but the capped store retains only ten records, so the store does not
contain one new record per submitted file. -/
theorem c3_cap_counterexample :
    (mkPlaceholders "J" files11 [] instA).length = 11 ∧
    (insertPlaceholders "J" files11 [] instA []).length = 10 := by
  constructor <;> rfl

/-- C3 (amended): immediately after a bulk submission of `k` files the
store starts with the first min(k, 10) placeholders in file order — all
`k` of them whenever k ≤ 10 (the store cap) — one per submitted file,
each with status "processing" and the job's id; larger batches are
truncated by the cap. -/
theorem c3_placeholders (j : String) (files prios : List String) (now : Instant)
    (s : Store) (hk : files.length ≤ 10) :
    (insertPlaceholders j files prios now s).take files.length =
      mkPlaceholders j files prios now ∧
    (mkPlaceholders j files prios now).length = files.length ∧
    (∀ i f, files[i]? = some f →
      (mkPlaceholders j files prios now)[i]? = some (mkPlaceholder j i f prios now)) ∧
    ∀ p ∈ mkPlaceholders j files prios now, p.status = "processing" ∧ p.jobId = some j := by
  have hlen : (mkPlaceholders j files prios now).length = files.length := by
    simp [mkPlaceholders, List.enum_length]
  refine ⟨?_, hlen, ?_, ?_⟩
  · unfold insertPlaceholders
    rw [List.take_take, Nat.min_eq_left hk]
    exact List.take_left' hlen
  · intro i f hf
    simp [mkPlaceholders, List.getElem?_map, List.getElem?_enum, hf]
  · intro p hp
    simp only [mkPlaceholders, List.mem_map] at hp
    obtain ⟨q, _, rfl⟩ := hp
    exact ⟨rfl, rfl⟩

/-- Witness for C3: submitting two files into an empty store makes the
store begin with exactly the two placeholders. -/
theorem c3_placeholders_witness :
    (insertPlaceholders "J" ["a.pdf", "b.pdf"] [] instA []).take 2 =
      mkPlaceholders "J" ["a.pdf", "b.pdf"] [] instA :=
  (c3_placeholders "J" ["a.pdf", "b.pdf"] [] instA [] (by decide)).1

/-! ## The name heuristic never returns an empty string

These lemmas justify that the JavaScript truthiness test on the
heuristic's result coincides with a plain null test, which claim C8's
spec-side resolution uses. -/

/-- Splitting on spaces never yields an empty word list. -/
lemma splitOnSpaceL_ne_nil : ∀ m : List Char, splitOnSpaceL m ≠ [] := by
  intro m
  cases m with
  | nil => simp [splitOnSpaceL]
  | cons c rest =>
    unfold splitOnSpaceL
    by_cases h : c == ' '
    · simp [h]
    · simp only [h, Bool.false_eq_true, if_false]
      cases splitOnSpaceL rest <;> simp

/-- Joining a two-or-more word list. -/
lemma joinSpaceL_cons {w : List Char} {ws : List (List Char)} (h : ws ≠ []) :
    joinSpaceL (w :: ws) = w ++ ' ' :: joinSpaceL ws := by
  cases ws with
  | nil => exact absurd rfl h
  | cons w2 ws2 => rfl

/-- Capitalizing the first character keeps the length. -/
lemma capFirstL_length (w : List Char) : (capFirstL w).length = w.length := by
  cases w <;> simp [capFirstL]

/-- Joining after capitalizing each word keeps the length of the join. -/
lemma joinSpaceL_map_capFirst_length :
    ∀ ws : List (List Char),
      (joinSpaceL (ws.map capFirstL)).length = (joinSpaceL ws).length := by
  intro ws
  induction ws with
  | nil => rfl
  | cons w ws2 ih =>
    cases ws2 with
    | nil => simpa [joinSpaceL] using capFirstL_length w
    | cons w2 ws3 =>
      rw [List.map_cons, joinSpaceL_cons (by simp), joinSpaceL_cons (by simp)]
      simp only [List.length_append, List.length_cons, capFirstL_length]
      rw [List.map_cons] at ih ⊢
      omega

/-- Splitting on spaces and joining with spaces reconstructs the string. -/
lemma joinSpaceL_splitOnSpaceL : ∀ m : List Char, joinSpaceL (splitOnSpaceL m) = m := by
  intro m
  induction m with
  | nil => rfl
  | cons c rest ih =>
    unfold splitOnSpaceL
    by_cases h : c == ' '
    · have hc : c = ' ' := by simpa using h
      rw [if_pos h, joinSpaceL_cons (splitOnSpaceL_ne_nil rest), ih, hc]
      rfl
    · rw [if_neg h]
      rcases hs : splitOnSpaceL rest with - | ⟨w, ws⟩
      · exact absurd hs (splitOnSpaceL_ne_nil rest)
      · rw [hs] at ih
        cases ws with
        | nil => simpa [joinSpaceL] using ih
        | cons w2 ws2 =>
          rw [joinSpaceL_cons (by simp)] at ih
          rw [joinSpaceL_cons (by simp)]
          simpa using ih

/-- Proper-casing keeps the length. -/
lemma properCaseL_length (l : List Char) : (properCaseL l).length = l.length := by
  unfold properCaseL
  rw [joinSpaceL_map_capFirst_length, joinSpaceL_splitOnSpaceL]
  simp [toLowerL]

/-- The head of a non-empty takeWhile satisfies the predicate. -/
lemma takeWhile_head_sat {p : Char → Bool} :
    ∀ {s : List Char} {c : Char} {t : List Char},
      s.takeWhile p = c :: t → p c = true := by
  intro s c t h
  cases s with
  | nil => simp [List.takeWhile] at h
  | cons a s2 =>
    rw [List.takeWhile_cons] at h
    by_cases hp : p a
    · rw [if_pos hp] at h
      injection h with h1 _
      exact h1 ▸ hp
    · rw [if_neg hp] at h
      cases h

/-- Every consumption produced by `plusCls` starts with a character of the
class. -/
lemma plusCls_head {p : Char → Bool} {s : List Char} {x : List Char × List Char}
    (hx : x ∈ plusCls p s) : ∃ c t, x.1 = c :: t ∧ p c = true := by
  simp only [plusCls, runSplits, List.mem_map, List.mem_range] at hx
  obtain ⟨i, hi, hx⟩ := hx
  rcases hrun : (s.takeWhile p) with - | ⟨c, t2⟩
  · rw [hrun] at hi
    simp at hi
  · have hp : p c = true := takeWhile_head_sat hrun
    rw [hrun] at hi hx
    obtain ⟨m, hm⟩ : ∃ m, (c :: t2).length - i = m + 1 := by
      refine ⟨(c :: t2).length - i - 1, ?_⟩
      simp only [List.length_cons] at hi ⊢
      omega
    refine ⟨c, t2.take m, ?_, hp⟩
    rw [← hx]
    simp only []
    rw [hm, List.take_succ_cons]

/-- Every consumption produced by `wordTitleM` starts with an uppercase
letter. -/
lemma wordTitleM_head {s : List Char} {x : List Char × List Char}
    (hx : x ∈ wordTitleM s) : ∃ c t, x.1 = c :: t ∧ isLetterA c = true := by
  cases s with
  | nil => cases hx
  | cons a rest =>
    rw [show wordTitleM (a :: rest) =
        (if isUpperA a then (plusCls isLowerA rest).map (fun x => (a :: x.1, x.2)) else [])
      from rfl] at hx
    by_cases ha : isUpperA a
    · rw [if_pos ha] at hx
      simp only [List.mem_map] at hx
      obtain ⟨y, -, hy⟩ := hx
      exact ⟨a, y.1, by rw [← hy], by simp [isLetterA, ha]⟩
    · rw [if_neg ha] at hx
      cases hx

/-- Every consumption produced by `wordAlphaM` starts with a letter. -/
lemma wordAlphaM_head {s : List Char} {x : List Char × List Char}
    (hx : x ∈ wordAlphaM s) : ∃ c t, x.1 = c :: t ∧ isLetterA c = true :=
  plusCls_head hx

/-- A sequencing result starts with whatever its first component starts
with. -/
lemma seqM_head {m1 m2 : List Char → MRes} {s : List Char} {x : List Char × List Char}
    (hx : x ∈ seqM m1 m2 s) : ∃ y, y ∈ m1 s ∧ ∃ z, x.1 = y.1 ++ z := by
  simp only [seqM, List.mem_bind, List.mem_map] at hx
  obtain ⟨y, hy, z, -, hz⟩ := hx
  exact ⟨y, hy, z.1, by rw [← hz]⟩

/-- A name-group capture starts with whatever the word matcher starts
with. -/
lemma nameGroupM_head {word : List Char → MRes} {s : List Char}
    {x : List Char × List Char}
    (hword : ∀ {s2 : List Char} {y : List Char × List Char}, y ∈ word s2 →
      ∃ c t, y.1 = c :: t ∧ isLetterA c = true)
    (hx : x ∈ nameGroupM word s) : ∃ c t, x.1 = c :: t ∧ isLetterA c = true := by
  obtain ⟨y, hy, z, hz⟩ := seqM_head hx
  obtain ⟨c, t, ht, hc⟩ := hword hy
  exact ⟨c, t ++ z, by rw [hz, ht, List.cons_append], hc⟩

/-- The head of a list, when present, is a member. -/
lemma head?_mem {α : Type} {l : List α} {a : α} (h : l.head? = some a) : a ∈ l := by
  cases l with
  | nil => cases h
  | cons b t =>
    rw [List.head?_cons] at h
    injection h with h1
    rw [← h1]
    exact List.mem_cons_self b t

/-- Captures selected through the end-of-input filter come from the
name-group list. -/
lemma filterMap_capture_mem {l : MRes} {g : List Char}
    (h : g ∈ l.filterMap (fun y => if y.2.isEmpty then some y.1 else none)) :
    ∃ y, y ∈ l ∧ g = y.1 := by
  rw [List.mem_filterMap] at h
  obtain ⟨y, hy, hsome⟩ := h
  by_cases he : y.2.isEmpty
  · rw [if_pos he] at hsome
    injection hsome with h1
    exact ⟨y, hy, h1.symm⟩
  · rw [if_neg he] at hsome
    cases hsome

/-- Pattern 1 captures start with a letter. -/
lemma p1MatchL_head {s g : List Char} (h : p1MatchL s = some g) :
    ∃ c t, g = c :: t ∧ isLetterA c = true := by
  unfold p1MatchL at h
  have hmem := head?_mem h
  simp only [List.mem_bind] at hmem
  obtain ⟨x, hx, hg⟩ := hmem
  obtain ⟨y, -, hy⟩ := List.mem_filterMap.mp hg
  obtain ⟨c, t, ht, hc⟩ := nameGroupM_head (fun {s2 y} hy2 => wordTitleM_head hy2) hx
  by_cases he : y.2.isEmpty
  · rw [if_pos he] at hy
    injection hy with h1
    exact ⟨c, t, h1 ▸ ht, hc⟩
  · rw [if_neg he] at hy
    cases hy

/-- Pattern 2 captures start with a letter. -/
lemma p2MatchL_head {s g : List Char} (h : p2MatchL s = some g) :
    ∃ c t, g = c :: t ∧ isLetterA c = true := by
  unfold p2MatchL at h
  have hmem := head?_mem h
  simp only [List.mem_bind] at hmem
  obtain ⟨x, -, hg⟩ := hmem
  rcases hx2 : x.2 with - | ⟨c2, r2⟩
  · rw [hx2] at hg
    cases hg
  · rw [hx2] at hg
    dsimp only at hg
    by_cases hsep : isSep c2
    · rw [if_pos hsep] at hg
      simp only [List.mem_bind] at hg
      obtain ⟨y, -, hgy⟩ := hg
      obtain ⟨z, hz, hzg⟩ := filterMap_capture_mem hgy
      obtain ⟨c, t, ht, hc⟩ :=
        nameGroupM_head (fun {s2 y2} hy2 => wordTitleM_head hy2) hz
      exact ⟨c, t, hzg ▸ ht, hc⟩
    · rw [if_neg hsep] at hg
      cases hg

/-- Pattern 3 captures start with a letter. -/
lemma p3MatchL_head {s g : List Char} (h : p3MatchL s = some g) :
    ∃ c t, g = c :: t ∧ isLetterA c = true := by
  unfold p3MatchL at h
  have hmem := head?_mem h
  obtain ⟨y, hy, hg⟩ := filterMap_capture_mem hmem
  obtain ⟨c, t, ht, hc⟩ := nameGroupM_head (fun {s2 y2} hy2 => wordTitleM_head hy2) hy
  exact ⟨c, t, hg ▸ ht, hc⟩

/-- Pattern 4 captures start with a letter. -/
lemma p4MatchL_head {s g : List Char} (h : p4MatchL s = some g) :
    ∃ c t, g = c :: t ∧ isLetterA c = true := by
  unfold p4MatchL at h
  have hmem := head?_mem h
  simp only [List.mem_bind] at hmem
  obtain ⟨x, hx, hg⟩ := hmem
  obtain ⟨y, -, hy⟩ := List.mem_filterMap.mp hg
  obtain ⟨c, t, ht, hc⟩ := nameGroupM_head (fun {s2 y2} hy2 => wordAlphaM_head hy2) hx
  by_cases he : y.2.isEmpty
  · rw [if_pos he] at hy
    injection hy with h1
    exact ⟨c, t, h1 ▸ ht, hc⟩
  · rw [if_neg he] at hy
    cases hy

/-- Pattern 5 captures start with a letter. -/
lemma p5MatchL_head {s g : List Char} (h : p5MatchL s = some g) :
    ∃ c t, g = c :: t ∧ isLetterA c = true := by
  unfold p5MatchL at h
  have hmem := head?_mem h
  simp only [List.mem_bind] at hmem
  obtain ⟨x, hx, hg⟩ := hmem
  obtain ⟨y, -, hy⟩ := List.mem_filterMap.mp hg
  obtain ⟨c, t, ht, hc⟩ := nameGroupM_head (fun {s2 y2} hy2 => wordAlphaM_head hy2) hx
  by_cases he : y.2.isEmpty
  · rw [if_pos he] at hy
    injection hy with h1
    exact ⟨c, t, h1 ▸ ht, hc⟩
  · rw [if_neg he] at hy
    cases hy

/-- A successful `tryPat` passes its pattern result through. -/
lemma tryPat_some {res : Option (List Char)} {g : List Char}
    (h : tryPat res = some g) : res = some g := by
  cases res with
  | none => cases h
  | some g2 =>
    unfold tryPat at h
    dsimp only at h
    by_cases he : g2.isEmpty
    · rw [if_pos he] at h
      cases h
    · rw [if_neg he] at h
      exact h

/-- Any capture selected by the pattern loop starts with a letter. -/
lemma patsFirst_head {l g : List Char} (h : patsFirst l = some g) :
    ∃ c t, g = c :: t ∧ isLetterA c = true := by
  unfold patsFirst at h
  rcases h1 : tryPat (p1MatchL l) with - | g1
  · rw [h1, Option.none_orElse] at h
    rcases h2 : tryPat (p2MatchL l) with - | g2
    · rw [h2, Option.none_orElse] at h
      rcases h3 : tryPat (p3MatchL l) with - | g3
      · rw [h3, Option.none_orElse] at h
        rcases h4 : tryPat (p4MatchL l) with - | g4
        · rw [h4, Option.none_orElse] at h
          exact p5MatchL_head (tryPat_some h)
        · rw [h4, Option.some_orElse] at h
          injection h with hg
          exact p4MatchL_head (tryPat_some (hg ▸ h4))
      · rw [h3, Option.some_orElse] at h
        injection h with hg
        exact p3MatchL_head (tryPat_some (hg ▸ h3))
    · rw [h2, Option.some_orElse] at h
      injection h with hg
      exact p2MatchL_head (tryPat_some (hg ▸ h2))
  · rw [h1, Option.some_orElse] at h
    injection h with hg
    exact p1MatchL_head (tryPat_some (hg ▸ h1))

/-- An ASCII letter is not a whitespace character. -/
lemma letter_not_jsSpace {c : Char} (h : isLetterA c = true) : isJsSpace c = false := by
  simp only [isLetterA, isUpperA, isLowerA, Bool.or_eq_true, Bool.and_eq_true,
    decide_eq_true_eq] at h
  by_contra hs
  rw [Bool.not_eq_false] at hs
  simp only [isJsSpace, Bool.or_eq_true, beq_iff_eq] at hs
  rcases h with ⟨h1, h2⟩ | ⟨h1, h2⟩ <;>
    rcases hs with ((((rfl | rfl) | rfl) | rfl) | rfl) | rfl <;>
      revert h1 h2 <;> decide

/-- Trimming a list that starts with a non-whitespace character yields a
non-empty list. -/
lemma trimL_cons_ne_nil {c : Char} {t : List Char} (hc : isJsSpace c = false) :
    trimL (c :: t) ≠ [] := by
  unfold trimL
  intro h
  rw [List.reverse_eq_nil_iff] at h
  have hall := List.dropWhile_eq_nil_iff.mp h
  have hdrop : (c :: t).dropWhile isJsSpace = c :: t := by
    rw [List.dropWhile_cons, if_neg (by simp [hc])]
  rw [hdrop] at hall
  have hmem : c ∈ (c :: t).reverse := by
    rw [List.mem_reverse]
    exact List.mem_cons_self c t
  have := hall c hmem
  rw [hc] at this
  cases this

/-- The heuristic core never returns an empty capture. -/
lemma extractNameCore_ne_nil {l g : List Char} (h : extractNameCore l = some g) :
    g ≠ [] := by
  unfold extractNameCore at h
  rcases hp : patsFirst (stripExtL l) with - | gr
  · rw [hp] at h
    dsimp only at h
    by_cases hguard :
        (cleanedNameL (stripExtL l)).contains ' ' &&
          decide ((cleanedNameL (stripExtL l)).length > 2) &&
          decide ((cleanedNameL (stripExtL l)).length < 50)
    · rw [if_pos hguard] at h
      injection h with h1
      have hlen : 2 < (cleanedNameL (stripExtL l)).length := by
        simp only [Bool.and_eq_true, decide_eq_true_eq] at hguard
        exact hguard.1.2
      intro hnil
      rw [← h1] at hnil
      have := properCaseL_length (cleanedNameL (stripExtL l))
      rw [hnil] at this
      simp at this
      omega
    · rw [if_neg hguard] at h
      cases h
  · rw [hp] at h
    dsimp only at h
    injection h with h1
    obtain ⟨c, t, hgr, hc⟩ := patsFirst_head hp
    have htrim : trimL gr ≠ [] := by
      rw [hgr]
      exact trimL_cons_ne_nil (letter_not_jsSpace hc)
    intro hnil
    rw [← h1] at hnil
    have := properCaseL_length (trimL gr)
    rw [hnil] at this
    simp at this
    exact htrim (List.length_eq_zero.mp this.symm)

/-- The name heuristic never returns the empty string. -/
lemma extractName_ne_empty {o : Option String} {out : String}
    (h : extractNameFromFilename o = some out) : out ≠ "" := by
  unfold extractNameFromFilename at h
  cases o with
  | none => cases h
  | some fn =>
    dsimp only at h
    by_cases hfn : fn == ""
    · rw [if_pos hfn] at h
      cases h
    · rw [if_neg hfn] at h
      rcases hc : extractNameCore fn.toList with - | g
      · rw [hc] at h
        cases h
      · rw [hc] at h
        dsimp only [Option.map] at h
        injection h with h1
        have hg : g ≠ [] := extractNameCore_ne_nil hc
        intro hempty
        rw [← h1] at hempty
        have : g = [] := by
          have := congrArg String.data hempty
          simpa using this
        exact hg this

/-- The force-match name chain coincides with the specification's
candidate-name priority order. -/
lemma forceName_eq_spec (r : ResultSummary) :
    forceExtractedName r = specResolvedName r := by
  unfold forceExtractedName specResolvedName
  rcases hcn : r.candidate_name with - | cn
  · rcases hh : extractNameFromFilename r.filename with - | h2
    · rcases hfn : r.filename with - | fn
      · simp [strTruthy, hh]
      · by_cases hc : sepToSpace (stripExt fn) = "" <;> simp [strTruthy, hh, hc]
    · have hne : h2 ≠ "" := extractName_ne_empty hh
      simp [strTruthy, hh, hne]
  · by_cases hcne : cn = ""
    · subst hcne
      rcases hh : extractNameFromFilename r.filename with - | h2
      · rcases hfn : r.filename with - | fn
        · simp [strTruthy, hh]
        · by_cases hc : sepToSpace (stripExt fn) = "" <;> simp [strTruthy, hh, hc]
      · have hne : h2 ≠ "" := extractName_ne_empty hh
        simp [strTruthy, hh, hne]
    · simp [strTruthy, hcne]

/-! ## C8: candidate-name resolution priority -/

/-- C8 counterexample: the exact-match pass applies a result to a matched
processing record (file named ".pdf", no structured candidate name) and
sets candidateName to the empty string, while the claimed priority order
resolves to "Unknown Candidate". -/
theorem c8_exact_pass_counterexample :
    ((reconcile "J" jsProcDot instA [recProcDot]).toOption.getD []).map
        (fun a => (a.candidateName, a.status)) = [(some "", "completed")] ∧
    specResolvedName resDotPdf = "Unknown Candidate" := by
  constructor <;> rfl

/-- C8 (amended): every record the FORCE-match pass modifies has its
candidateName (and name) resolved by the claimed priority order —
explicit candidate_name when it carries a non-empty name, else the
heuristic when non-null, else the cleaned filename when non-empty, else
"Unknown Candidate". The exact-match pass does not follow this order: its
final fallback is the extension-stripped filename without separator
replacement and without the "Unknown Candidate" default (see the
counterexample). -/
theorem c8_force_name_priority (j : String) (r : ResultSummary) (now : Instant)
    (t : Store) (a : AnalysisRecord) (hmem : a ∈ forceAssign j r now t) :
    a ∈ t ∨
      (a.candidateName = some (specResolvedName r) ∧
        a.name = some (specResolvedName r) ∧ a.status = "completed") := by
  induction t with
  | nil => cases hmem
  | cons b t2 ih =>
    unfold forceAssign at hmem
    by_cases hb : procOf j b
    · rw [if_pos hb] at hmem
      rcases List.mem_cons.mp hmem with heq | htail
      · refine Or.inr ?_
        rw [heq]
        refine ⟨?_, ?_, rfl⟩ <;> simp [applyForceResult, forceName_eq_spec]
      · exact Or.inl (List.mem_cons_of_mem b htail)
    · rw [if_neg hb] at hmem
      rcases List.mem_cons.mp hmem with heq | htail
      · exact Or.inl (heq ▸ List.mem_cons_self b t2)
      · rcases ih htail with h1 | h2
        · exact Or.inl (List.mem_cons_of_mem b h1)
        · exact Or.inr h2

/-- Witness for C8: force-assigning the concrete result for `a.pdf` to the
store holding its placeholder yields the record named by the spec's
priority order. -/
theorem c8_force_name_priority_witness :
    applyForceResult resA recProcA instA ∈ ([recProcA] : Store) ∨
      ((applyForceResult resA recProcA instA).candidateName =
          some (specResolvedName resA) ∧
        (applyForceResult resA recProcA instA).name = some (specResolvedName resA) ∧
        (applyForceResult resA recProcA instA).status = "completed") :=
  c8_force_name_priority "J" resA instA [recProcA] (applyForceResult resA recProcA instA)
    (by decide)

/-! ## Structural lemmas about the two reconciliation passes -/

/-- Bool/Prop bridge for the placeholder predicate. -/
lemma procOf_iff {j : String} {a : AnalysisRecord} :
    procOf j a = true ↔ IsProcOf j a := by
  simp [procOf, IsProcOf]

/-- A record with job or status not matching is left alone by the
exact-match step. -/
lemma pass1Record_not_proc {j : String} {rs : List ResultSummary} {now : Instant}
    {a : AnalysisRecord} (h : ¬ IsProcOf j a) :
    pass1Record j rs now a = .ok a := by
  unfold pass1Record
  rw [if_neg (fun hp => h (procOf_iff.mp hp))]

/-- A placeholder with no matching result is left alone by the exact-match
step. -/
lemma pass1Record_no_match {j : String} {rs : List ResultSummary} {now : Instant}
    {a : AnalysisRecord} (h : rs.find? (fun r => r.filename == a.fileName) = none) :
    pass1Record j rs now a = .ok a := by
  unfold pass1Record
  rw [h]
  split <;> rfl

/-- The exact-match step keeps the record or completes it. -/
lemma pass1Record_cases {j : String} {rs : List ResultSummary} {now : Instant}
    {a a' : AnalysisRecord} (h : pass1Record j rs now a = .ok a') :
    a' = a ∨ a'.status = "completed" := by
  unfold pass1Record at h
  by_cases hp : procOf j a
  · rw [if_pos hp] at h
    rcases hf : rs.find? (fun r => r.filename == a.fileName) with - | r
    · rw [hf] at h
      injection h with h1
      exact Or.inl h1.symm
    · rw [hf] at h
      dsimp only at h
      cases hn : pass1Name r with
      | error e =>
        rw [hn] at h
        cases h
      | ok nm =>
        rw [hn] at h
        injection h with h1
        exact Or.inr (by rw [← h1]; rfl)
  · rw [if_neg hp] at h
    injection h with h1
    exact Or.inl h1.symm

/-- A processing record surviving the exact-match step had no matching
result. -/
lemma pass1Record_proc_ok {j : String} {rs : List ResultSummary} {now : Instant}
    {a a' : AnalysisRecord} (h : pass1Record j rs now a = .ok a')
    (hp : IsProcOf j a') :
    a' = a ∧ rs.find? (fun r => r.filename == a'.fileName) = none := by
  unfold pass1Record at h
  by_cases hpa : procOf j a
  · rw [if_pos hpa] at h
    rcases hf : rs.find? (fun r => r.filename == a.fileName) with - | r
    · rw [hf] at h
      injection h with h1
      subst h1
      exact ⟨rfl, hf⟩
    · rw [hf] at h
      dsimp only at h
      cases hn : pass1Name r with
      | error e =>
        rw [hn] at h
        cases h
      | ok nm =>
        rw [hn] at h
        injection h with h1
        exfalso
        have hcomp : a'.status = "completed" := by rw [← h1]; rfl
        have hcontra : ("processing" : String) = "completed" := by
          rw [← hp.2, hcomp]
        exact absurd hcontra (by decide)
  · rw [if_neg hpa] at h
    injection h with h1
    subst h1
    exfalso
    exact hpa (procOf_iff.mpr hp)

/-- Pointwise description of a successful exact-match pass. -/
lemma pass1_ok_pointwise {j : String} {rs : List ResultSummary} {now : Instant} :
    ∀ {s s1 : Store}, pass1 j rs now s = .ok s1 →
      s1.length = s.length ∧
      ∀ (i : Nat) (a : AnalysisRecord), s[i]? = some a →
        ∃ a', s1[i]? = some a' ∧ pass1Record j rs now a = .ok a' := by
  intro s
  induction s with
  | nil =>
    intro s1 h
    injection h with h1
    subst h1
    refine ⟨rfl, ?_⟩
    intro i a ha
    rw [List.getElem?_nil] at ha
    cases ha
  | cons a t ih =>
    intro s1 h
    unfold pass1 at h
    cases hr : pass1Record j rs now a with
    | error e =>
      rw [hr] at h
      cases h
    | ok a' =>
      rw [hr] at h
      cases ht : pass1 j rs now t with
      | error e =>
        rw [ht] at h
        cases h
      | ok t' =>
        rw [ht] at h
        injection h with h1
        subst h1
        obtain ⟨hlen, hpt⟩ := ih ht
        refine ⟨by simp [hlen], ?_⟩
        intro i b hb
        cases i with
        | zero =>
          rw [List.getElem?_cons_zero] at hb ⊢
          injection hb with hb1
          subst hb1
          exact ⟨a', rfl, hr⟩
        | succ i2 =>
          rw [List.getElem?_cons_succ] at hb ⊢
          exact hpt i2 b hb

/-- Every record of a successful exact-match pass output comes from an
input record. -/
lemma pass1_ok_mem {j : String} {rs : List ResultSummary} {now : Instant} :
    ∀ {s s1 : Store}, pass1 j rs now s = .ok s1 →
      ∀ a' ∈ s1, ∃ a, a ∈ s ∧ pass1Record j rs now a = .ok a' := by
  intro s
  induction s with
  | nil =>
    intro s1 h
    injection h with h1
    subst h1
    intro a' ha'
    cases ha'
  | cons a t ih =>
    intro s1 h
    unfold pass1 at h
    cases hr : pass1Record j rs now a with
    | error e =>
      rw [hr] at h
      cases h
    | ok b =>
      rw [hr] at h
      cases ht : pass1 j rs now t with
      | error e =>
        rw [ht] at h
        cases h
      | ok t' =>
        rw [ht] at h
        injection h with h1
        subst h1
        intro a' ha'
        rcases List.mem_cons.mp ha' with heq | htail
        · exact ⟨a, List.mem_cons_self a t, heq ▸ hr⟩
        · obtain ⟨a0, ha0, hrec⟩ := ih ht a' htail
          exact ⟨a0, List.mem_cons_of_mem a ha0, hrec⟩

/-- A second exact-match pass over a store with no remaining match targets
is the identity. -/
lemma pass1_of_no_target {j : String} {rs : List ResultSummary} {now : Instant} :
    ∀ {s : Store},
      (∀ a ∈ s, IsProcOf j a → rs.find? (fun r => r.filename == a.fileName) = none) →
      pass1 j rs now s = .ok s := by
  intro s
  induction s with
  | nil => intro _; rfl
  | cons a t ih =>
    intro hcond
    have ha : pass1Record j rs now a = .ok a := by
      by_cases hp : IsProcOf j a
      · exact pass1Record_no_match (hcond a (List.mem_cons_self a t) hp)
      · exact pass1Record_not_proc hp
    have ht := ih (fun b hb hpb => hcond b (List.mem_cons_of_mem a hb) hpb)
    unfold pass1
    rw [ha, ht]

/-! ## Structural lemmas about the force-match pass -/

/-- The force-assign step preserves the store length. -/
lemma forceAssign_length (j : String) (r : ResultSummary) (now : Instant) :
    ∀ t : Store, (forceAssign j r now t).length = t.length := by
  intro t
  induction t with
  | nil => rfl
  | cons a t2 ih =>
    unfold forceAssign
    by_cases hp : procOf j a
    · rw [if_pos hp]
      rfl
    · rw [if_neg hp]
      simp [ih]

/-- Every record after a force-assign step was there before or is
completed. -/
lemma forceAssign_mem {j : String} {r : ResultSummary} {now : Instant} :
    ∀ {t : Store} {a : AnalysisRecord}, a ∈ forceAssign j r now t →
      a ∈ t ∨ a.status = "completed" := by
  intro t
  induction t with
  | nil => intro a h; cases h
  | cons b t2 ih =>
    intro a h
    unfold forceAssign at h
    by_cases hp : procOf j b
    · rw [if_pos hp] at h
      rcases List.mem_cons.mp h with heq | htail
      · exact Or.inr (by rw [heq]; rfl)
      · exact Or.inl (List.mem_cons_of_mem b htail)
    · rw [if_neg hp] at h
      rcases List.mem_cons.mp h with heq | htail
      · exact Or.inl (heq ▸ List.mem_cons_self b t2)
      · rcases ih htail with h1 | h2
        · exact Or.inl (List.mem_cons_of_mem b h1)
        · exact Or.inr h2

/-- A record still processing after a force-assign step was there before. -/
lemma forceAssign_mem_proc {j : String} {r : ResultSummary} {now : Instant}
    {t : Store} {a : AnalysisRecord} (h : a ∈ forceAssign j r now t)
    (hp : IsProcOf j a) : a ∈ t := by
  rcases forceAssign_mem h with h1 | h2
  · exact h1
  · exfalso
    have hcontra : ("processing" : String) = "completed" := by rw [← hp.2, h2]
    exact absurd hcontra (by decide)

/-- Positions holding a non-placeholder record are untouched by a
force-assign step. -/
lemma forceAssign_getElem?_frame {j : String} {r : ResultSummary} {now : Instant} :
    ∀ {t : Store} {i : Nat} {a : AnalysisRecord},
      t[i]? = some a → ¬ IsProcOf j a → (forceAssign j r now t)[i]? = some a := by
  intro t
  induction t with
  | nil =>
    intro i a h _
    rw [List.getElem?_nil] at h
    cases h
  | cons b t2 ih =>
    intro i a h hna
    unfold forceAssign
    by_cases hp : procOf j b
    · rw [if_pos hp]
      cases i with
      | zero =>
        rw [List.getElem?_cons_zero] at h
        injection h with h1
        exfalso
        exact hna (h1 ▸ procOf_iff.mp hp)
      | succ i2 =>
        rw [List.getElem?_cons_succ] at h ⊢
        exact h
    · rw [if_neg hp]
      cases i with
      | zero =>
        rw [List.getElem?_cons_zero] at h ⊢
        exact h
      | succ i2 =>
        rw [List.getElem?_cons_succ] at h ⊢
        exact ih h hna

/-- A force-assign step over a store with no placeholders left is the
identity. -/
lemma forceAssign_of_noProc {j : String} {r : ResultSummary} {now : Instant} :
    ∀ {t : Store}, (∀ a ∈ t, ¬ IsProcOf j a) → forceAssign j r now t = t := by
  intro t
  induction t with
  | nil => intro _; rfl
  | cons b t2 ih =>
    intro hno
    unfold forceAssign
    rw [if_neg (fun hp => hno b (List.mem_cons_self b t2) (procOf_iff.mp hp))]
    rw [ih (fun a ha => hno a (List.mem_cons_of_mem b ha))]

/-- Completed records survive a force-assign step. -/
lemma forceAssign_completed_mem {j : String} {r : ResultSummary} {now : Instant}
    {t : Store} {a : AnalysisRecord} (ha : a ∈ t) (hc : a.status = "completed") :
    a ∈ forceAssign j r now t := by
  induction t with
  | nil => cases ha
  | cons b t2 ih =>
    unfold forceAssign
    by_cases hp : procOf j b
    · rw [if_pos hp]
      rcases List.mem_cons.mp ha with heq | htail
      · exfalso
        have hb : b.status = "processing" := (procOf_iff.mp hp).2
        rw [heq] at hc
        have hcontra : ("processing" : String) = "completed" := by rw [← hb, hc]
        exact absurd hcontra (by decide)
      · exact List.mem_cons_of_mem _ htail
    · rw [if_neg hp]
      rcases List.mem_cons.mp ha with heq | htail
      · exact heq ▸ List.mem_cons_self b _
      · exact List.mem_cons_of_mem b (ih htail)

/-- When a placeholder exists, a force-assign step puts the assigned
record in the store. -/
lemma forceAssign_assigns {j : String} {r : ResultSummary} {now : Instant} :
    ∀ {t : Store}, (∃ a ∈ t, IsProcOf j a) →
      ∃ a, a ∈ t ∧ IsProcOf j a ∧ applyForceResult r a now ∈ forceAssign j r now t := by
  intro t
  induction t with
  | nil => rintro ⟨a, ha, -⟩; cases ha
  | cons b t2 ih =>
    rintro ⟨a, ha, hpa⟩
    unfold forceAssign
    by_cases hp : procOf j b
    · rw [if_pos hp]
      exact ⟨b, List.mem_cons_self b t2, procOf_iff.mp hp,
        List.mem_cons_self _ t2⟩
    · rw [if_neg hp]
      rcases List.mem_cons.mp ha with heq | htail
      · exfalso
        exact hp (procOf_iff.mpr (heq ▸ hpa))
      · obtain ⟨a2, ha2, hpa2, hmem2⟩ := ih ⟨a, htail, hpa⟩
        exact ⟨a2, List.mem_cons_of_mem b ha2, hpa2,
          List.mem_cons_of_mem b hmem2⟩

/-- The force-match fold preserves the store length. -/
lemma foldAssign_length (j : String) (now : Instant) :
    ∀ (us : List ResultSummary) (t : Store),
      (foldAssign j now us t).length = t.length := by
  intro us
  induction us with
  | nil => intro t; rfl
  | cons r us2 ih =>
    intro t
    unfold foldAssign at ih ⊢
    rw [List.foldl_cons, ih, forceAssign_length]

/-- Positions holding a non-placeholder record are untouched by the
force-match fold. -/
lemma foldAssign_getElem?_frame {j : String} {now : Instant} :
    ∀ {us : List ResultSummary} {t : Store} {i : Nat} {a : AnalysisRecord},
      t[i]? = some a → ¬ IsProcOf j a → (foldAssign j now us t)[i]? = some a := by
  intro us
  induction us with
  | nil => intro t i a h _; exact h
  | cons r us2 ih =>
    intro t i a h hna
    unfold foldAssign
    rw [List.foldl_cons]
    exact ih (forceAssign_getElem?_frame h hna) hna

/-- A record still processing after the force-match fold was there
before. -/
lemma foldAssign_mem_proc {j : String} {now : Instant} :
    ∀ {us : List ResultSummary} {t : Store} {a : AnalysisRecord},
      a ∈ foldAssign j now us t → IsProcOf j a → a ∈ t := by
  intro us
  induction us with
  | nil => intro t a h _; exact h
  | cons r us2 ih =>
    intro t a h hp
    unfold foldAssign at h
    rw [List.foldl_cons] at h
    exact forceAssign_mem_proc (ih h hp) hp

/-- Every record after the force-match fold was there before or is
completed. -/
lemma foldAssign_mem {j : String} {now : Instant} :
    ∀ {us : List ResultSummary} {t : Store} {a : AnalysisRecord},
      a ∈ foldAssign j now us t → a ∈ t ∨ a.status = "completed" := by
  intro us
  induction us with
  | nil => intro t a h; exact Or.inl h
  | cons r us2 ih =>
    intro t a h
    unfold foldAssign at h
    rw [List.foldl_cons] at h
    rcases ih h with h1 | h2
    · exact forceAssign_mem h1
    · exact Or.inr h2

/-- The force-match fold over a store with no placeholders left is the
identity. -/
lemma foldAssign_of_noProc {j : String} {now : Instant} :
    ∀ {us : List ResultSummary} {t : Store},
      (∀ a ∈ t, ¬ IsProcOf j a) → foldAssign j now us t = t := by
  intro us
  induction us with
  | nil => intro t _; rfl
  | cons r us2 ih =>
    intro t hno
    unfold foldAssign
    rw [List.foldl_cons, forceAssign_of_noProc hno]
    exact ih hno

/-- Completed records survive the force-match fold. -/
lemma foldAssign_completed_mem {j : String} {now : Instant} :
    ∀ {us : List ResultSummary} {t : Store} {a : AnalysisRecord},
      a ∈ t → a.status = "completed" → a ∈ foldAssign j now us t := by
  intro us
  induction us with
  | nil => intro t a h _; exact h
  | cons r us2 ih =>
    intro t a h hc
    unfold foldAssign
    rw [List.foldl_cons]
    exact ih (forceAssign_completed_mem h hc) hc

/-- A result accounted for by a completed record stays accounted for
after a force-assign step. -/
lemma matched_persists_assign {j : String} {r0 r : ResultSummary} {now : Instant}
    {t : Store} (h : resultMatchedByCompleted j t r0 = true) :
    resultMatchedByCompleted j (forceAssign j r now t) r0 = true := by
  unfold resultMatchedByCompleted at h ⊢
  rw [List.any_eq_true] at h ⊢
  obtain ⟨a, ha, hm⟩ := h
  have hc : a.status = "completed" := by
    unfold resMatchCompleted at hm
    simp only [Bool.and_eq_true, beq_iff_eq] at hm
    exact hm.1.2
  exact ⟨a, forceAssign_completed_mem ha hc, hm⟩

/-- A result accounted for by a completed record stays accounted for
through the force-match fold. -/
lemma matched_persists_fold {j : String} {r0 : ResultSummary} {now : Instant} :
    ∀ {us : List ResultSummary} {t : Store},
      resultMatchedByCompleted j t r0 = true →
      resultMatchedByCompleted j (foldAssign j now us t) r0 = true := by
  intro us
  induction us with
  | nil => intro t h; exact h
  | cons r us2 ih =>
    intro t h
    unfold foldAssign
    rw [List.foldl_cons]
    exact ih (matched_persists_assign h)

/-- After the force-match fold, every processed result with a non-empty
filename is accounted for by a completed record — unless no placeholder
of the job remains at all. -/
lemma foldAssign_matched_or_noProc {j : String} {now : Instant} :
    ∀ (us : List ResultSummary) (t : Store),
      (∀ r ∈ us, r.filename.getD "" ≠ "") →
      ∀ r ∈ us,
        resultMatchedByCompleted j (foldAssign j now us t) r = true ∨
        ∀ a ∈ foldAssign j now us t, ¬ IsProcOf j a := by
  intro us
  induction us with
  | nil =>
    intro t _ r hr
    cases hr
  | cons r0 us2 ih =>
    intro t hfn r hr
    by_cases hex : ∃ a ∈ t, IsProcOf j a
    · rcases List.mem_cons.mp hr with heq | htail
      · subst heq
        obtain ⟨e, -, hpe, hmem⟩ := @forceAssign_assigns j r now t hex
        have htr : strTruthy r.filename = true := by
          rcases hf : r.filename with - | fn
          · exfalso
            exact (hfn r (List.mem_cons_self r us2)) (by rw [hf]; rfl)
          · have hne : fn ≠ "" := by
              have hx := hfn r (List.mem_cons_self r us2)
              rw [hf] at hx
              simpa using hx
            simp [strTruthy, hne]
        have hmatch :
            resultMatchedByCompleted j (forceAssign j r now t) r = true := by
          unfold resultMatchedByCompleted
          rw [List.any_eq_true]
          refine ⟨applyForceResult r e now, hmem, ?_⟩
          have hjob : (applyForceResult r e now).jobId = some j := by
            have : (applyForceResult r e now).jobId = e.jobId := rfl
            rw [this, hpe.1]
          have hfile : (applyForceResult r e now).fileName = r.filename := by
            have : (applyForceResult r e now).fileName = jsOrOptStr r.filename e.fileName := rfl
            rw [this]
            unfold jsOrOptStr
            rw [htr]
            rfl
          have hstat : (applyForceResult r e now).status = "completed" := rfl
          unfold resMatchCompleted
          simp [hjob, hfile, hstat]
        have hgoal := @matched_persists_fold j r now us2 (forceAssign j r now t) hmatch
        exact Or.inl (by
          show resultMatchedByCompleted j (foldAssign j now (r :: us2) t) r = true
          unfold foldAssign
          rw [List.foldl_cons]
          exact hgoal)
      · have := ih (forceAssign j r0 now t)
          (fun r2 h2 => hfn r2 (List.mem_cons_of_mem r0 h2)) r htail
        rcases this with h1 | h2
        · refine Or.inl ?_
          show resultMatchedByCompleted j (foldAssign j now (r0 :: us2) t) r = true
          unfold foldAssign
          rw [List.foldl_cons]
          exact h1
        · refine Or.inr ?_
          show ∀ a ∈ foldAssign j now (r0 :: us2) t, ¬ IsProcOf j a
          unfold foldAssign
          rw [List.foldl_cons]
          exact h2
    · have hno : ∀ a ∈ t, ¬ IsProcOf j a := fun a ha hpa => hex ⟨a, ha, hpa⟩
      refine Or.inr ?_
      rw [foldAssign_of_noProc hno]
      exact hno

/-- After a force-match pass over results with non-empty filenames, every
result is accounted for by a completed record or no placeholder of the
job remains. -/
lemma forcePass_matched_or_noProc {j : String} {now : Instant}
    {rs : List ResultSummary} {s1 : Store}
    (hfn : ∀ r ∈ rs, r.filename.getD "" ≠ "") :
    ∀ r ∈ rs,
      resultMatchedByCompleted j (forcePass j now rs s1) r = true ∨
      ∀ a ∈ forcePass j now rs s1, ¬ IsProcOf j a := by
  intro r hr
  by_cases hm : resultMatchedByCompleted j s1 r = true
  · exact Or.inl (matched_persists_fold hm)
  · have hrf : r ∈ rs.filter (fun r2 => !(resultMatchedByCompleted j s1 r2)) := by
      rw [List.mem_filter]
      refine ⟨hr, ?_⟩
      rw [Bool.not_eq_true] at hm
      simp [hm]
    exact foldAssign_matched_or_noProc
      (rs.filter (fun r2 => !(resultMatchedByCompleted j s1 r2))) s1
      (fun r2 h2 => hfn r2 (List.mem_of_mem_filter h2)) r hrf

/-- Applying the force-match pass a second time with the same results
changes nothing (for results with non-empty filenames). -/
lemma forcePass_second_identity {j : String} {now now2 : Instant}
    {rs : List ResultSummary} {s1 : Store}
    (hfn : ∀ r ∈ rs, r.filename.getD "" ≠ "") :
    forcePass j now2 rs (forcePass j now rs s1) = forcePass j now rs s1 := by
  by_cases hnil :
      rs.filter (fun r => !(resultMatchedByCompleted j (forcePass j now rs s1) r)) = []
  · show foldAssign j now2
        (rs.filter (fun r => !(resultMatchedByCompleted j (forcePass j now rs s1) r)))
        (forcePass j now rs s1) = forcePass j now rs s1
    rw [hnil]
    rfl
  · obtain ⟨r1, hr1⟩ := List.exists_mem_of_ne_nil _ hnil
    have hr1rs : r1 ∈ rs := List.mem_of_mem_filter hr1
    have hr1un : resultMatchedByCompleted j (forcePass j now rs s1) r1 = false := by
      have hx := (List.mem_filter.mp hr1).2
      simpa using hx
    rcases forcePass_matched_or_noProc hfn r1 hr1rs with hmu | hno
    · rw [hmu] at hr1un
      cases hr1un
    · show foldAssign j now2
        (rs.filter (fun r => !(resultMatchedByCompleted j (forcePass j now rs s1) r)))
        (forcePass j now rs s1) = forcePass j now rs s1
      exact foldAssign_of_noProc hno

/-- After a successful exact-match pass, no processing record of the job
has a matching result left. -/
lemma pass1_ok_no_target {j : String} {rs : List ResultSummary} {now : Instant}
    {s s1 : Store} (h : pass1 j rs now s = .ok s1) :
    ∀ a ∈ s1, IsProcOf j a →
      rs.find? (fun r => r.filename == a.fileName) = none := by
  intro a ha hpa
  obtain ⟨a0, -, hrec⟩ := pass1_ok_mem h a ha
  exact (pass1Record_proc_ok hrec hpa).2

/-- The no-remaining-target property survives the force-match pass. -/
lemma forcePass_no_target {j : String} {now : Instant}
    {rs rs2 : List ResultSummary} {s1 : Store}
    (h : ∀ a ∈ s1, IsProcOf j a →
      rs.find? (fun r => r.filename == a.fileName) = none) :
    ∀ a ∈ forcePass j now rs2 s1, IsProcOf j a →
      rs.find? (fun r => r.filename == a.fileName) = none := by
  intro a ha hpa
  exact h a (foldAssign_mem_proc ha hpa) hpa

/-! ## C1: idempotence of reconciliation -/

/-- C1 counterexample: with a completed snapshot whose single result has
an empty filename and a store holding two placeholders of the job,
applying the reconciliation twice completes both placeholders while
applying it once completes only the first — the two store states differ,
and neither application raised an exception. -/
theorem c1_not_idempotent_counterexample :
    (reconcile "J" jsCompletedEmptyFn instA [recProcA, recProcB]).toOption.isSome = true ∧
    (reconcile "J" jsCompletedEmptyFn instA
        ((reconcile "J" jsCompletedEmptyFn instA [recProcA, recProcB]).toOption.getD
          [])).toOption.isSome = true ∧
    (reconcile "J" jsCompletedEmptyFn instA
        ((reconcile "J" jsCompletedEmptyFn instA [recProcA, recProcB]).toOption.getD
          [])).toOption.getD [] ≠
      (reconcile "J" jsCompletedEmptyFn instA [recProcA, recProcB]).toOption.getD [] := by
  refine ⟨rfl, rfl, ?_⟩
  decide

/-- C1 (amended): reconciliation is idempotent provided every result of
the snapshot carries a non-empty filename: if one application succeeds
with store `s1`, a second application of the same snapshot (at any later
instant) returns `s1` unchanged. With an absent or empty filename a
result can be force-matched onto a further placeholder by the second
application (see the counterexample). -/
theorem c1_reconcile_idempotent (j : String) (js : JobStatus) (now now2 : Instant)
    (s s1 : Store)
    (hfn : ∀ rs, js.results = some rs → ∀ r ∈ rs, r.filename.getD "" ≠ "")
    (h1 : reconcile j js now s = .ok s1) :
    reconcile j js now2 s1 = .ok s1 := by
  unfold reconcile at h1 ⊢
  rcases hres : js.results with - | rs
  · rw [hres] at h1
    dsimp only at h1 ⊢
    by_cases hst : js.status = "completed"
    · rw [if_pos hst] at h1
      cases h1
    · rw [if_neg hst]
  · rw [hres] at h1
    dsimp only at h1 ⊢
    have hfn2 : ∀ r ∈ rs, r.filename.getD "" ≠ "" := hfn rs hres
    rcases rs with - | ⟨r0, rs2⟩
    · rw [if_neg (by simp)]
      dsimp only
      by_cases hst : js.status = "completed"
      · rw [if_pos hst]
        rfl
      · rw [if_neg hst]
    · rw [if_pos (by simp)] at h1 ⊢
      cases hp : pass1 j (r0 :: rs2) now s with
      | error e =>
        rw [hp] at h1
        cases h1
      | ok sp =>
        rw [hp] at h1
        dsimp only at h1
        have hNT := pass1_ok_no_target hp
        by_cases hst : js.status = "completed"
        · rw [if_pos hst] at h1
          injection h1 with h2
          have hs1 : s1 = forcePass j now (r0 :: rs2) sp := h2.symm
          subst hs1
          have hNT2 := @forcePass_no_target j now (r0 :: rs2) (r0 :: rs2) sp hNT
          rw [pass1_of_no_target hNT2]
          dsimp only
          rw [if_pos hst, forcePass_second_identity hfn2]
        · rw [if_neg hst] at h1
          injection h1 with h2
          have hs1 : s1 = sp := h2.symm
          subst hs1
          rw [pass1_of_no_target hNT]
          dsimp only
          rw [if_neg hst]

/-- Witness for C1: reconciling a completed one-result snapshot for
`a.pdf` into a two-placeholder store once and then a second time at a
later instant leaves the store exactly as after the first application. -/
theorem c1_reconcile_idempotent_witness :
    reconcile "J" jsCompletedA instB
        ((reconcile "J" jsCompletedA instA [recProcA, recProcB]).toOption.getD []) =
      .ok ((reconcile "J" jsCompletedA instA [recProcA, recProcB]).toOption.getD []) := by
  have h1 : reconcile "J" jsCompletedA instA [recProcA, recProcB] =
      .ok ((reconcile "J" jsCompletedA instA [recProcA, recProcB]).toOption.getD []) := rfl
  refine c1_reconcile_idempotent "J" jsCompletedA instA instB [recProcA, recProcB] _
    ?_ h1
  intro rs hrs
  have h3 : rs = [resA] := by
    have h4 : (some [resA] : Option (List ResultSummary)) = some rs := hrs
    injection h4 with h5
    exact h5.symm
  subst h3
  intro r hr
  have h6 : r = resA := by simpa using hr
  subst h6
  decide

/-! ## C2 and C10: invariants of a whole reconciliation -/

/-- Each record of a successful reconcile output was already in the store
or is completed. -/
lemma reconcile_ok_mem {j : String} {js : JobStatus} {now : Instant}
    {s s1 : Store} (h : reconcile j js now s = .ok s1) :
    ∀ a ∈ s1, a ∈ s ∨ a.status = "completed" := by
  unfold reconcile at h
  rcases hres : js.results with - | rs
  · rw [hres] at h
    dsimp only at h
    by_cases hst : js.status = "completed"
    · rw [if_pos hst] at h
      cases h
    · rw [if_neg hst] at h
      injection h with h2
      intro a ha
      exact Or.inl (h2 ▸ ha)
  · rw [hres] at h
    dsimp only at h
    by_cases hlen : rs.length > 0
    · rw [if_pos hlen] at h
      cases hp : pass1 j rs now s with
      | error e =>
        rw [hp] at h
        cases h
      | ok sp =>
        rw [hp] at h
        dsimp only at h
        by_cases hst : js.status = "completed"
        · rw [if_pos hst] at h
          injection h with h2
          intro a ha
          rw [← h2] at ha
          rcases foldAssign_mem ha with h3 | h4
          · obtain ⟨a0, ha0, hrec⟩ := pass1_ok_mem hp a h3
            rcases pass1Record_cases hrec with h5 | h6
            · exact Or.inl (h5 ▸ ha0)
            · exact Or.inr h6
          · exact Or.inr h4
        · rw [if_neg hst] at h
          injection h with h2
          intro a ha
          rw [← h2] at ha
          obtain ⟨a0, ha0, hrec⟩ := pass1_ok_mem hp a ha
          rcases pass1Record_cases hrec with h5 | h6
          · exact Or.inl (h5 ▸ ha0)
          · exact Or.inr h6
    · rw [if_neg hlen] at h
      dsimp only at h
      by_cases hst : js.status = "completed"
      · rw [if_pos hst] at h
        injection h with h2
        intro a ha
        rw [← h2] at ha
        rcases foldAssign_mem ha with h3 | h4
        · exact Or.inl h3
        · exact Or.inr h4
      · rw [if_neg hst] at h
        injection h with h2
        intro a ha
        exact Or.inl (h2 ▸ ha)

/-- A successful reconcile preserves length and order and leaves every
record that is not a processing placeholder of the polled job untouched
at its position. -/
lemma reconcile_ok_frame {j : String} {js : JobStatus} {now : Instant}
    {s s1 : Store} (h : reconcile j js now s = .ok s1) :
    s1.length = s.length ∧
    ∀ (i : Nat) (a : AnalysisRecord), s[i]? = some a → ¬ IsProcOf j a →
      s1[i]? = some a := by
  unfold reconcile at h
  rcases hres : js.results with - | rs
  · rw [hres] at h
    dsimp only at h
    by_cases hst : js.status = "completed"
    · rw [if_pos hst] at h
      cases h
    · rw [if_neg hst] at h
      injection h with h2
      subst h2
      exact ⟨rfl, fun i a ha _ => ha⟩
  · rw [hres] at h
    dsimp only at h
    by_cases hlen : rs.length > 0
    · rw [if_pos hlen] at h
      cases hp : pass1 j rs now s with
      | error e =>
        rw [hp] at h
        cases h
      | ok sp =>
        rw [hp] at h
        dsimp only at h
        obtain ⟨hplen, hppt⟩ := pass1_ok_pointwise hp
        have hframe1 : ∀ (i : Nat) (a : AnalysisRecord), s[i]? = some a →
            ¬ IsProcOf j a → sp[i]? = some a := by
          intro i a ha hna
          obtain ⟨a', ha', hrec⟩ := hppt i a ha
          rw [pass1Record_not_proc hna] at hrec
          injection hrec with h3
          rw [h3]
          exact ha'
        by_cases hst : js.status = "completed"
        · rw [if_pos hst] at h
          injection h with h2
          subst h2
          constructor
          · unfold forcePass
            rw [foldAssign_length, hplen]
          · intro i a ha hna
            exact foldAssign_getElem?_frame (hframe1 i a ha hna) hna
        · rw [if_neg hst] at h
          injection h with h2
          subst h2
          exact ⟨hplen, hframe1⟩
    · rw [if_neg hlen] at h
      dsimp only at h
      by_cases hst : js.status = "completed"
      · rw [if_pos hst] at h
        injection h with h2
        subst h2
        constructor
        · unfold forcePass
          rw [foldAssign_length]
        · intro i a ha hna
          exact foldAssign_getElem?_frame ha hna
      · rw [if_neg hst] at h
        injection h with h2
        subst h2
        exact ⟨rfl, fun i a ha _ => ha⟩

/-- C2: no operation of the subsystem (reconciliation of a poll response,
placeholder insertion, expiry cleanup) ever turns a completed record back
into a processing one — every processing record of an output store is
either a record of the input store, unchanged, or a freshly created
placeholder. -/
theorem c2_no_completed_regression (op : StoreOp) (s : Store) (a : AnalysisRecord)
    (hmem : a ∈ applyStoreOp op s) (hst : a.status = "processing") :
    a ∈ s ∨ a ∈ opNewRecords op := by
  cases op with
  | reconcileOp j js now =>
    cases hres : reconcile j js now s with
    | error e =>
      left
      simp only [applyStoreOp] at hmem
      rw [hres] at hmem
      exact hmem
    | ok s1 =>
      simp only [applyStoreOp] at hmem
      rw [hres] at hmem
      dsimp only [Except.toOption, Option.getD] at hmem
      rcases reconcile_ok_mem hres a hmem with h1 | h2
      · exact Or.inl h1
      · exfalso
        rw [hst] at h2
        exact absurd h2 (by decide)
  | insertOp j files prios now =>
    simp only [applyStoreOp] at hmem
    unfold insertPlaceholders at hmem
    have hsub := List.take_subset 10 _ hmem
    rcases List.mem_append.mp hsub with h1 | h2
    · exact Or.inr h1
    · exact Or.inl h2
  | cleanupOp j =>
    left
    simp only [applyStoreOp] at hmem
    unfold cleanupJob at hmem
    exact List.mem_of_mem_filter hmem

/-- Witness for C2: the cleanup of job K keeps the processing record of
job J, which indeed was already in the store. -/
theorem c2_no_completed_regression_witness :
    recProcA ∈ ([recProcA] : Store) ∨ recProcA ∈ opNewRecords (.cleanupOp "K") :=
  c2_no_completed_regression (.cleanupOp "K") [recProcA] recProcA (by decide) rfl

/-- C10: a reconciliation (exact-match pass plus force-match pass, with an
exception leaving the store untouched) preserves the number and order of
records, and every record whose jobId differs from the polled one or
whose status is not "processing" is left unchanged at its position. -/
theorem c10_reconcile_frame (j : String) (js : JobStatus) (now : Instant) (s : Store) :
    (applyStoreOp (.reconcileOp j js now) s).length = s.length ∧
    ∀ (i : Nat) (a : AnalysisRecord), s[i]? = some a → ¬ IsProcOf j a →
      (applyStoreOp (.reconcileOp j js now) s)[i]? = some a := by
  cases hres : reconcile j js now s with
  | error e =>
    simp only [applyStoreOp]
    rw [hres]
    exact ⟨rfl, fun i a ha _ => ha⟩
  | ok s1 =>
    simp only [applyStoreOp]
    rw [hres]
    dsimp only [Except.toOption, Option.getD]
    exact reconcile_ok_frame hres

/-- Witness for C10: reconciling a completed snapshot for job J leaves
the completed record of job K untouched at position 0. -/
theorem c10_reconcile_frame_witness :
    (applyStoreOp (.reconcileOp "J" jsCompletedA instA) [recDoneK])[0]? =
      some recDoneK :=
  (c10_reconcile_frame "J" jsCompletedA instA [recDoneK]).2 0 recDoneK rfl
    (fun h => absurd h.2 (by decide))
